import Mathlib

/-!
Verification development for the MaaUniversalUI-Alpha configuration core.

This file is a shallow embedding, in Lean 4, of the Go code of the
repository: the v2 schema data model (`backend/pi/piv2.go`,
`backend/pi/config.go`), the schema validator (`ParseV2`/`validateV2`),
the i18n resolver (`pi.go`, the v2 resolver), the option resolution
walkers (`collectOptionDefaults`, `collectExpectedOptions`), the config
synchronizer (`syncTaskConfigOptions`), the override compiler
(`mergePipelineOverrides`, `collectOptionOverrides`, `replaceVariables`,
`replaceValue`, `convertValue`, `mergeOverride` in `engine/engine.go`),
and the lifecycle controller's `Start`/task loop (`engine/service.go`).

Modelling conventions, used throughout:
* Go `map[string]T` values coming from parsed JSON objects are modelled
  as association lists `List (String × T)` with unique keys; lookup is
  first-match.  A Go map that is *built* by iterating a list (where a
  later write overwrites an earlier one) is modelled by last-occurrence
  lookup (`lastAssoc`), and a read of a missing key yields the zero
  value `""`, exactly as Go map indexing does.
* `json.RawMessage` override fragments are modelled in parsed form as
  `Option Doc` (`none` = absent or unparseable; Go skips those).
  JSON numeric leaves are modelled as integers; no claim under
  verification involves non-integer numerics.
* The recursive option-tree walks in Go have no cycle protection and
  can diverge on cyclic schemas; they are embedded with an explicit
  recursion-depth fuel parameter.  Fuel exhaustion stops a nested
  descent, in the same place in every walker, so fuel-truncated walks
  of the different walkers remain comparable at equal fuel.
* Display-only metadata fields (labels, descriptions, icons, ...) that
  no embedded function reads are omitted from the record types.
-/

/-- JSON-like values appearing inside pipeline-override fragments
(Go `interface{}` after `json.Unmarshal`). -/
inductive Val where
  | str : String → Val
  | num : Int → Val
  | bool : Bool → Val
  | null : Val
  | arr : List Val → Val
  | obj : List (String × Val) → Val

/-- A parsed pipeline-override document:
entry name → (property key → value), Go `map[string]map[string]interface{}`. -/
abbrev Doc := List (String × List (String × Val))

/-- `V2OptionInput` of `piv2.go`. -/
structure V2OptionInput where
  name : String
  default : String
  pipelineType : String
  verify : String

/-- `V2OptionCase` of `piv2.go`. -/
structure V2OptionCase where
  name : String
  option : List String
  pipelineOverride : Option Doc

/-- `V2Option` of `piv2.go`. -/
structure V2Option where
  type : String
  cases : List V2OptionCase
  inputs : List V2OptionInput
  pipelineOverride : Option Doc
  defaultCase : String

/-- `V2Option.GetType` of `piv2.go`: an absent/empty `type` field means
`"select"`. -/
def V2Option.GetType (o : V2Option) : String :=
  if o.type = "" then "select" else o.type

/-- `V2Controller` of `piv2.go` (fields the validator reads). -/
structure V2Controller where
  name : String
  type : String
  displayShortSide : Option Int
  displayLongSide : Option Int
  displayRaw : Bool

/-- `V2Resource` of `piv2.go`. -/
structure V2Resource where
  name : String
  path : List String
  controller : List String

/-- `V2Agent` of `piv2.go`. -/
structure V2Agent where
  childExec : String
  childArgs : List String
  identifier : String

/-- `V2Task` of `piv2.go`. -/
structure V2Task where
  name : String
  entry : String
  defaultCheck : Bool
  resource : List String
  pipelineOverride : Option Doc
  option : List String

/-- `V2Interface` of `piv2.go` (fields the embedded functions read). -/
structure V2Interface where
  interfaceVersion : Int
  name : String
  languages : List (String × String)
  controller : List V2Controller
  resource : List V2Resource
  agent : Option V2Agent
  task : List V2Task
  option : List (String × V2Option)

/-- `ConfigTaskOption` of `config.go`. -/
structure ConfigTaskOption where
  name : String
  value : String
deriving DecidableEq

/-- `ConfigTask` of `config.go`. -/
structure ConfigTask where
  id : String
  name : String
  checked : Bool
  option : List ConfigTaskOption
deriving DecidableEq

/-- First-match lookup in an association list modelling a parsed-JSON
Go map (unique keys). -/
def lookupOpt (defs : List (String × V2Option)) (n : String) : Option V2Option :=
  (defs.find? (fun p => p.1 = n)).map (fun p => p.2)

/-- Last-occurrence lookup with zero default: the semantics of reading
key `k` from a Go `map[string]string` that was filled by iterating the
list in order (`currentOptions[opt.Name] = opt.Value`). -/
def lastAssoc (l : List ConfigTaskOption) (k : String) : String :=
  match l.reverse.find? (fun p => p.name = k) with
  | some p => p.value
  | none => ""

/-- The four exact literals the Go code compares a switch case name
against (`caseName != "Yes" && caseName != "yes" && caseName != "Y" &&
caseName != "y"` in `collectOptionDefaults`/`collectExpectedOptions`). -/
def yesName (s : String) : Bool :=
  s = "Yes" || s = "yes" || s = "Y" || s = "y"

/-- The first case whose `Name` equals `v` (the Go
`for i := range Cases { if Cases[i].Name == v { ...; break } }` search). -/
def findCase (cases : List V2OptionCase) (v : String) : Option V2OptionCase :=
  cases.find? (fun c => c.name = v)

/-- The type-based zero default of `collectOptionDefaults` /
`collectExpectedOptions` (`"false"` for bool, `"0"` for int, `""` else). -/
def typeZero (pipelineType : String) : String :=
  if pipelineType = "bool" then "false"
  else if pipelineType = "int" then "0"
  else ""

/-- Default value of one input (`value := input.Default; if value == ""
{ value = typeZero }` in `collectOptionDefaults`). -/
def defaultInputValue (inp : V2OptionInput) : String :=
  if inp.default = "" then typeZero inp.pipelineType else inp.default

/-- `collectOptionDefaults` of `service.go` (pi): recursively collects
default values for options, returning the appended
`ConfigTaskOption` list.  `fuel` bounds the number of walk steps (the
Go recursion is unbounded and can diverge on cyclic schemas); every
walker in this file consumes fuel identically, one unit per node and
per nested descent. -/
def collectOptionDefaults (defs : List (String × V2Option)) :
    Nat → List String → List ConfigTaskOption
  | 0, _ => []
  | _ + 1, [] => []
  | fuel + 1, n :: rest =>
    (match lookupOpt defs n with
     | none => []
     | some opt =>
       let t := opt.GetType
       if t = "select" then
         let sv := if opt.defaultCase = ""
           then (match opt.cases with | [] => "" | c :: _ => c.name)
           else opt.defaultCase
         let sc := if opt.defaultCase = ""
           then opt.cases.head?
           else findCase opt.cases opt.defaultCase
         (if sv = "" then [] else [ConfigTaskOption.mk n sv]) ++
         (match sc with
          | some c =>
            if c.option.isEmpty then []
            else collectOptionDefaults defs fuel c.option
          | none => [])
       else if t = "switch" then
         let sc := opt.cases.find? (fun c => !yesName c.name)
         let sv0 := match sc with | some c => c.name | none => ""
         let sv := if sv0 = "" then (if opt.cases.isEmpty then "" else "No")
                   else sv0
         (if sv = "" then [] else [ConfigTaskOption.mk n sv]) ++
         (match sc with
          | some c =>
            if c.option.isEmpty then []
            else collectOptionDefaults defs fuel c.option
          | none => [])
       else if t = "input" then
         opt.inputs.map
           (fun inp => ConfigTaskOption.mk (n ++ "." ++ inp.name) (defaultInputValue inp))
       else []) ++ collectOptionDefaults defs fuel rest

/-- `collectExpectedOptions` of `service.go` (pi): recursively collects
the expected option set given the currently stored values `cur`
(`cur k` is the Go map read `currentValues[k]`, `""` when absent). -/
def collectExpectedOptions (defs : List (String × V2Option)) (cur : String → String) :
    Nat → List String → List ConfigTaskOption
  | 0, _ => []
  | _ + 1, [] => []
  | fuel + 1, n :: rest =>
    (match lookupOpt defs n with
     | none => []
     | some opt =>
       let t := opt.GetType
       if t = "select" then
         let sv0 := cur n
         let sv := if sv0 = "" then
             (if opt.defaultCase = ""
              then (match opt.cases with | [] => "" | c :: _ => c.name)
              else opt.defaultCase)
           else sv0
         let sc := findCase opt.cases sv
         (if sv = "" then [] else [ConfigTaskOption.mk n sv]) ++
         (match sc with
          | some c =>
            if c.option.isEmpty then []
            else collectExpectedOptions defs cur fuel c.option
          | none => [])
       else if t = "switch" then
         let sv0 := cur n
         let sc := if sv0 = "" then opt.cases.find? (fun c => !yesName c.name)
                   else findCase opt.cases sv0
         let sv := if sv0 = "" then
             (match opt.cases.find? (fun c => !yesName c.name) with
              | some c => if c.name = "" then "No" else c.name
              | none => "No")
           else sv0
         (if sv = "" then [] else [ConfigTaskOption.mk n sv]) ++
         (match sc with
          | some c =>
            if c.option.isEmpty then []
            else collectExpectedOptions defs cur fuel c.option
          | none => [])
       else if t = "input" then
         opt.inputs.map (fun inp =>
           let key := n ++ "." ++ inp.name
           let v0 := cur key
           let v := if v0 = ""
             then (if inp.default = "" then typeZero inp.pipelineType else inp.default)
             else v0
           ConfigTaskOption.mk key v)
       else []) ++ collectExpectedOptions defs cur fuel rest

/-- `syncTaskConfigOptions` of `service.go` (pi) for a single task:
diffs the expected option set against the stored one, returns whether a
change was made together with the (possibly rebuilt) option list. -/
def syncTaskConfigOptions (defs : List (String × V2Option)) (fuel : Nat)
    (taskOpts : List ConfigTaskOption) (optionNames : List String) :
    Bool × List ConfigTaskOption :=
  let cur := fun k => lastAssoc taskOpts k
  let expected := collectExpectedOptions defs cur fuel optionNames
  let missing := expected.filter
    (fun e => (taskOpts.find? (fun o => o.name = e.name)).isNone)
  let isExpectedName := fun k => expected.any (fun e => e.name = k)
  let extra := taskOpts.filter (fun o => !isExpectedName o.name)
  if missing.isEmpty && extra.isEmpty then (false, taskOpts)
  else (true, taskOpts.filter (fun o => isExpectedName o.name) ++ missing)

/-- The schema errors `validateV2` can report (`parserv2.go`); payloads
keep the identifying data of the corresponding `fmt.Errorf` message. -/
inductive SchemaError where
  | versionMismatch (got : Int)
  | missingName
  | ctrlMissingName
  | ctrlDupName (n : String)
  | ctrlInvalidType (n t : String)
  | ctrlDisplayExclusive (n : String)
  | resMissingName
  | resDupName (n : String)
  | resMissingPath (n : String)
  | resDanglingCtrl (n ref : String)
  | agentMissingChildExec
  | taskMissingName
  | taskMissingEntry (n : String)
  | taskDanglingRes (n ref : String)
  | taskDanglingOpt (n ref : String)
  | optMissingCases (n : String)
  | optSwitchCases (n : String)
  | caseMissingName (n : String)
  | caseDanglingOpt (n ref : String)
  | optMissingDefaultCase (n dc : String)
  | optMissingInputs (n : String)
  | inputMissingName (n : String)
  | inputBadRegex (n : String)
  | optInvalidType (n t : String)
deriving DecidableEq

/-- Fail-fast sequencing of two checks: the Go pattern of returning the
first error. -/
def exSeq (a b : Except SchemaError Unit) : Except SchemaError Unit :=
  match a with
  | .error e => .error e
  | .ok _ => b

/-- Fail-fast check of every element of a list, in order (a Go
`for ... { if bad { return err } }` loop). -/
def checkAll {α : Type} (f : α → Except SchemaError Unit) :
    List α → Except SchemaError Unit
  | [] => .ok ()
  | x :: xs => exSeq (f x) (checkAll f xs)

/-- Controller loop of `validateV2`: name present, unique (against the
accumulated `seen` names), valid type, display-option exclusivity. -/
def validateControllers : List V2Controller → List String → Except SchemaError Unit
  | [], _ => .ok ()
  | c :: cs, seen =>
    if c.name = "" then .error .ctrlMissingName
    else if seen.contains c.name then .error (.ctrlDupName c.name)
    else if c.type ≠ "Adb" ∧ c.type ≠ "Win32" then .error (.ctrlInvalidType c.name c.type)
    else
      let cnt := (if c.displayShortSide.isSome then 1 else 0) +
                 (if c.displayLongSide.isSome then 1 else 0) +
                 (if c.displayRaw then 1 else 0)
      if cnt > 1 then .error (.ctrlDisplayExclusive c.name)
      else validateControllers cs (c.name :: seen)

/-- Resource loop of `validateV2`. `ctrlNames` is the full set of
controller names (the Go loop only reaches the resources after every
controller passed, at which point `controllerNames` holds all of them). -/
def validateResources (ctrlNames : List String) :
    List V2Resource → List String → Except SchemaError Unit
  | [], _ => .ok ()
  | r :: rs, seen =>
    if r.name = "" then .error .resMissingName
    else if seen.contains r.name then .error (.resDupName r.name)
    else if r.path.isEmpty then .error (.resMissingPath r.name)
    else
      exSeq (checkAll (fun ref =>
          if ctrlNames.contains ref then .ok ()
          else .error (.resDanglingCtrl r.name ref)) r.controller)
        (validateResources ctrlNames rs (r.name :: seen))

/-- Per-task checks of `validateV2`. -/
def validateTask (resNames : List String) (defs : List (String × V2Option))
    (t : V2Task) : Except SchemaError Unit :=
  if t.name = "" then .error .taskMissingName
  else if t.entry = "" then .error (.taskMissingEntry t.name)
  else
    exSeq (checkAll (fun ref =>
        if resNames.contains ref then .ok ()
        else .error (.taskDanglingRes t.name ref)) t.resource)
      (checkAll (fun ref =>
        if (lookupOpt defs ref).isSome then .ok ()
        else .error (.taskDanglingOpt t.name ref)) t.option)

/-- Per-case checks of `validateV2`: case name present, nested option
references resolvable. -/
def validateCase (defs : List (String × V2Option)) (n : String)
    (c : V2OptionCase) : Except SchemaError Unit :=
  exSeq (if c.name = "" then .error (.caseMissingName n) else .ok ())
    (checkAll (fun sub =>
      if (lookupOpt defs sub).isSome then .ok ()
      else .error (.caseDanglingOpt n sub)) c.option)

/-- Per-input checks of `validateV2`: input name present, the `verify`
pattern (when set) must compile.  `regexOk` is an oracle standing for
Go's `regexp.Compile` succeeding (the regex engine itself is external
to the embedded core). -/
def validateInput (regexOk : String → Bool) (n : String)
    (inp : V2OptionInput) : Except SchemaError Unit :=
  if inp.name = "" then .error (.inputMissingName n)
  else if inp.verify ≠ "" ∧ ¬ regexOk inp.verify then .error (.inputBadRegex n)
  else .ok ()

/-- The cardinality checks of the select/switch branch of the option
loop of `validateV2`: at least one case, and exactly two for a switch. -/
def checkCardinality (n : String) (t : String) (opt : V2Option) :
    Except SchemaError Unit :=
  if opt.cases.length = 0 then .error (.optMissingCases n)
  else if t = "switch" ∧ opt.cases.length ≠ 2 then .error (.optSwitchCases n)
  else .ok ()

/-- The select/switch branch of the option loop of `validateV2`:
cardinality, then per-case checks, then the default-case reference. -/
def validateSelectSwitch (defs : List (String × V2Option)) (n : String)
    (t : String) (opt : V2Option) : Except SchemaError Unit :=
  exSeq (checkCardinality n t opt)
    (exSeq (checkAll (validateCase defs n) opt.cases)
      (if opt.defaultCase ≠ "" ∧ ¬ opt.cases.any (fun c => c.name = opt.defaultCase)
       then .error (.optMissingDefaultCase n opt.defaultCase) else .ok ()))

/-- The body of the option loop of `validateV2`, dispatching on
`GetType`. -/
def validateOption (regexOk : String → Bool) (defs : List (String × V2Option))
    (n : String) (opt : V2Option) : Except SchemaError Unit :=
  let t := opt.GetType
  if t = "select" ∨ t = "switch" then validateSelectSwitch defs n t opt
  else if t = "input" then
    exSeq (if opt.inputs.length = 0 then .error (.optMissingInputs n) else .ok ())
      (checkAll (validateInput regexOk n) opt.inputs)
  else .error (.optInvalidType n t)

/-- `validateV2` of `parserv2.go`: version, name, controllers,
resources, agent, tasks, options, in that order, failing fast.
Go iterates the option map in unspecified order; acceptance (`.ok`)
does not depend on the iteration order, so list order is used. -/
def validateV2 (regexOk : String → Bool) (iface : V2Interface) :
    Except SchemaError Unit :=
  if iface.interfaceVersion ≠ 2 then .error (.versionMismatch iface.interfaceVersion)
  else if iface.name = "" then .error .missingName
  else
    exSeq (validateControllers iface.controller [])
      (exSeq (validateResources (iface.controller.map (fun c => c.name)) iface.resource [])
        (exSeq (match iface.agent with
                | some a => if a.childExec = "" then .error .agentMissingChildExec else .ok ()
                | none => .ok ())
          (exSeq (checkAll (validateTask (iface.resource.map (fun r => r.name)) iface.option)
                    iface.task)
            (checkAll (fun p => validateOption regexOk iface.option p.1 p.2) iface.option))))

/-- `IsI18nString` of `pi.go`: a reference starts with `$` and is not
just `"$"` (`len(s) > 0 && s[0] == '$' && len(s) != 1`; the `$` byte
can only be the first byte of the character `$`). -/
def IsI18nString (s : String) : Bool :=
  match s.data with
  | [] => false
  | c :: rest => c = '$' && !rest.isEmpty

/-- `GetI18nKey` of `pi.go`: strip the `$` prefix of a reference. -/
def GetI18nKey (s : String) : String :=
  if IsI18nString s then String.mk s.data.tail else s

/-- `V2I18nResolver` of `parserv2.go`: a loaded translation map. -/
structure V2I18nResolver where
  translations : List (String × String)

/-- `V2I18nResolver.Resolve`: look the stripped key up, fall back to
the original string. -/
def V2I18nResolver.Resolve (r : V2I18nResolver) (s : String) : String :=
  if IsI18nString s then
    match (r.translations.find? (fun p => p.1 = GetI18nKey s)).map (fun p => p.2) with
    | some v => v
    | none => s
  else s

/-- The resolver table of `V2Loaded` (language → loaded resolver). -/
structure V2LoadedI18n where
  resolvers : List (String × V2I18nResolver)

/-- `V2Loaded.ResolveString` of `parserv2.go`: resolve `s` for `lang`;
an unknown language degrades to the bare key. -/
def ResolveString (l : V2LoadedI18n) (s : String) (lang : String) : String :=
  if IsI18nString s then
    match (l.resolvers.find? (fun p => p.1 = lang)).map (fun p => p.2) with
    | some r => r.Resolve s
    | none => GetI18nKey s
  else s

/-- ASCII word character, Go regexp `\w` = `[0-9A-Za-z_]`. -/
def isWordChar (c : Char) : Bool :=
  c.isAlpha || c.isDigit || c = '_'

/-- The anchored match of `engine.go`'s pattern `^\x7b(\w+)\x7d$`
against a string: returns the captured variable name when the whole
string is `\x7b`, one or more word characters, `\x7d`. -/
def matchExactVar (s : String) : Option String :=
  match s.data with
  | '{' :: rest =>
    match rest.getLast? with
    | some '}' =>
      let mid := rest.dropLast
      if !mid.isEmpty && mid.all isWordChar then some (String.mk mid) else none
    | _ => none
  | _ => none

/-- Leftmost non-overlapping replacement of every occurrence of `pat`
(never empty where used) by `rep`, Go `strings.ReplaceAll` at the
character level.  `fuel` bounds the number of scan steps; every step
consumes at least one character, so `fuel = l.length` (as the wrapper
passes) is always enough. -/
def listReplaceAll (pat rep : List Char) : Nat → List Char → List Char
  | 0, l => l
  | _ + 1, [] => []
  | fuel + 1, c :: rest =>
    if !pat.isEmpty && pat.isPrefixOf (c :: rest) then
      rep ++ listReplaceAll pat rep fuel ((c :: rest).drop pat.length)
    else c :: listReplaceAll pat rep fuel rest

/-- `strings.ReplaceAll` on strings. -/
def strReplaceAll (s pat rep : String) : String :=
  String.mk (listReplaceAll pat.data rep.data s.data.length s.data)

/-- `inputValue` of `engine.go`: value and pipeline type of one input. -/
structure InputValue where
  value : String
  pipelineType : String

/-- Lookup of a variable name in the collected input values
(`inputValues[varName]`, a parsed-JSON-shaped map with unique keys). -/
def lookupIV (ivs : List (String × InputValue)) (n : String) : Option InputValue :=
  (ivs.find? (fun p => p.1 = n)).map (fun p => p.2)

/-- `strconv.Atoi`: optional sign, decimal digits, 64-bit range. -/
def atoi? (s : String) : Option Int :=
  let core : Bool → List Char → Option Int := fun neg ds =>
    if ds.isEmpty || !ds.all Char.isDigit then none
    else
      let n : Nat := ds.foldl (fun a c => a * 10 + (c.toNat - 48)) 0
      let v : Int := if neg then -(n : Int) else (n : Int)
      if -9223372036854775808 ≤ v ∧ v ≤ 9223372036854775807 then some v else none
  match s.data with
  | '+' :: ds => core false ds
  | '-' :: ds => core true ds
  | ds => core false ds

/-- `convertValue` of `engine.go`: convert an input's string value
according to its pipeline type. -/
def convertValue (value pipelineType : String) : Val :=
  if pipelineType = "int" then
    match atoi? value with
    | some i => .num i
    | none => .str value
  else if pipelineType = "bool" then
    .bool (value = "true" || value = "True" || value = "1")
  else .str value

/-- The textual-substitution pass of `replaceValue`: replace
`\x7bname\x7d` by the input's raw value, for every known input name,
in the order the input values were collected (Go iterates the map in
unspecified order; the claims under verification do not depend on it). -/
def substAll (ivs : List (String × InputValue)) (s : String) : String :=
  ivs.foldl (fun acc p => strReplaceAll acc ("\x7b" ++ p.1 ++ "\x7d") p.2.value) s

mutual

/-- `replaceValue` of `engine.go`: recursively replace variables in a
value.  A string that is exactly `\x7bname\x7d` for a known input is
replaced by the converted input value; otherwise every known
placeholder occurring in a string is textually substituted; arrays and
objects recurse; other leaves pass through. -/
def replaceValue (ivs : List (String × InputValue)) : Val → Val
  | .str s =>
    (match matchExactVar s with
     | some nm =>
       match lookupIV ivs nm with
       | some iv => convertValue iv.value iv.pipelineType
       | none => .str (substAll ivs s)
     | none => .str (substAll ivs s))
  | .arr xs => .arr (replaceValueList ivs xs)
  | .obj kvs => .obj (replaceValueObj ivs kvs)
  | .num i => .num i
  | .bool b => .bool b
  | .null => .null

/-- `replaceValue` mapped over an array's elements. -/
def replaceValueList (ivs : List (String × InputValue)) : List Val → List Val
  | [] => []
  | x :: xs => replaceValue ivs x :: replaceValueList ivs xs

/-- `replaceValue` mapped over an object's fields. -/
def replaceValueObj (ivs : List (String × InputValue)) :
    List (String × Val) → List (String × Val)
  | [] => []
  | kv :: kvs => (kv.1, replaceValue ivs kv.2) :: replaceValueObj ivs kvs

end

/-- `replaceVariables` of `engine.go`: apply `replaceValue` to every
property value of every entry of an override document. -/
def replaceVariables (ivs : List (String × InputValue)) (override : Doc) : Doc :=
  override.map (fun e => (e.1, replaceValueObj ivs e.2))

/-- Entry lookup in a document (first match). -/
def lookupEntry (d : Doc) (t : String) : Option (List (String × Val)) :=
  (d.find? (fun e => e.1 = t)).map (fun e => e.2)

/-- Read `d[t][k]`. -/
def getKey (d : Doc) (t k : String) : Option Val :=
  match lookupEntry d t with
  | some props => (props.find? (fun kv => kv.1 = k)).map (fun kv => kv.2)
  | none => none

/-- Replace the binding of `k` in a property list (or append it),
the Go map write `props[k] = v`. -/
def setProp (props : List (String × Val)) (k : String) (v : Val) :
    List (String × Val) :=
  match props with
  | [] => [(k, v)]
  | kv :: rest => if kv.1 = k then (k, v) :: rest else kv :: setProp rest k v

/-- The Go map write `base[t][k] = v` (entry assumed present). -/
def setKey (base : Doc) (t k : String) (v : Val) : Doc :=
  match base with
  | [] => []
  | e :: rest => if e.1 = t then (e.1, setProp e.2 k v) :: rest else e :: setKey rest t k v

/-- `if _, exists := base[t]; !exists { base[t] = \x7b\x7d }`. -/
def ensureEntry (base : Doc) (t : String) : Doc :=
  if (lookupEntry base t).isSome then base else base ++ [(t, [])]

/-- `mergeOverride` of `engine.go`: per-entry, per-key assignment of
every binding of `override` into `base`; a later assignment of the
same entry+key overwrites, and values are never merged recursively. -/
def mergeOverride (base override : Doc) : Doc :=
  override.foldl
    (fun b e => e.2.foldl (fun b kv => setKey b e.1 kv.1 kv.2) (ensureEntry b e.1))
    base

/-- The input values collected by the `input` branch of
`collectOptionOverrides`: the stored config value under
`optionName.inputName` if non-empty, else the input's declared default
(note: not the type-based zero). -/
def collectInputValues (n : String) (cur : String → String)
    (inputs : List V2OptionInput) : List (String × InputValue) :=
  inputs.map (fun inp =>
    let v0 := cur (n ++ "." ++ inp.name)
    (inp.name, InputValue.mk (if v0 = "" then inp.default else v0) inp.pipelineType))

/-- `collectOptionOverrides` of `engine.go`: walk the task's option
references in declaration order, merging the selected case's fragment
(then its nested options), and for input options the substituted
option-level fragment, into `merged`. -/
def collectOptionOverrides (defs : List (String × V2Option)) (cur : String → String) :
    Nat → Doc → List String → Doc
  | 0, merged, _ => merged
  | _ + 1, merged, [] => merged
  | fuel + 1, merged, n :: rest =>
    let merged' :=
      match lookupOpt defs n with
      | none => merged
      | some opt =>
        let t := opt.GetType
        if t = "select" ∨ t = "switch" then
          if cur n = "" then merged
          else
            match findCase opt.cases (cur n) with
            | none => merged
            | some c =>
              let m1 := match c.pipelineOverride with
                | some d => mergeOverride merged d
                | none => merged
              if c.option.isEmpty then m1
              else collectOptionOverrides defs cur fuel m1 c.option
        else if t = "input" then
          match opt.pipelineOverride with
          | some d =>
            mergeOverride merged (replaceVariables (collectInputValues n cur opt.inputs) d)
          | none => merged
        else merged
    collectOptionOverrides defs cur fuel merged' rest

/-- `mergePipelineOverrides` of `engine.go`: the task's own fragment
first, then the option fragments in declaration order. -/
def mergePipelineOverrides (defs : List (String × V2Option)) (fuel : Nat)
    (task : V2Task) (configOptions : List ConfigTaskOption) : Doc :=
  let base := match task.pipelineOverride with
    | some d => mergeOverride [] d
    | none => []
  let cur := fun k => lastAssoc configOptions k
  collectOptionOverrides defs cur fuel base task.option

/-- Status of a posted task, mirroring `maa.Status` outcomes. -/
inductive MaaStatus where
  | invalid
  | pending
  | running
  | succeeded
  | failed
deriving DecidableEq

/-- `MaaStatus.succeeded` is the only success. -/
def MaaStatus.success (s : MaaStatus) : Bool :=
  s = MaaStatus.succeeded

/-- Lifecycle state of `engine/service.go`'s `service`: the running
flag plus whether the four backend handle fields are published
(tasker/res/ctrl/agent are set and cleared together under the lock). -/
structure EngineState where
  isRunning : Bool
  hasHandles : Bool
deriving DecidableEq

/-- Observable actions of `Start`, in program order: log lines, the
`engine:running` notifications (`EventsEmit(s.ctx, EventEngineRunning, b)`),
the `app:error` notification, and the marker that the acquisition
sequence (createRes/createCtrl/createAgent/bind) was performed. -/
inductive EngineEvent where
  | logLine (msg : String)
  | engineRunning (b : Bool)
  | appError (msg : String)
  | acquisitionRun
deriving DecidableEq

/-- Outcome of the external acquisition sequence (resource, controller,
agent creation and binding against the automation backend). -/
inductive AcqOutcome where
  | success
  | failure (msg : String)
deriving DecidableEq

/-- `Start` of `engine/service.go`, sequentially (the claim's
"immediate succession" scenario; the mutex serialises the flag
sections).  If the running flag is set, log and return; otherwise set
the flag, log, publish "session active", perform the acquisition
sequence, and on failure roll back the flag and publish "session
inactive" (`handleInitError`). -/
def startEngine (st : EngineState) (outcome : AcqOutcome) :
    EngineState × List EngineEvent :=
  if st.isRunning then
    (st, [.logLine "engine is already running"])
  else
    match outcome with
    | .success =>
      (EngineState.mk true true,
       [.logLine "engine starting...", .engineRunning true, .acquisitionRun])
    | .failure m =>
      (EngineState.mk false false,
       [.logLine "engine starting...", .engineRunning true, .acquisitionRun,
        .appError m, .engineRunning false])

/-- A queued task of the execution plan (`engine.Task`; timestamps
omitted).  `status = none` models the zero Status of a never-run task. -/
structure RTask where
  entry : String
  status : Option MaaStatus
deriving DecidableEq

/-- The background execution loop of `Start` (`engine/service.go`):
for the `i`-th plan item it observes the running flag (and the tasker
handle, cleared together with it) as `obs i`; when the observation is
false the loop returns, leaving the rest untouched; otherwise it posts
the task, waits, and records the resulting status `result i` on that
task alone, then continues with the next item regardless of the
recorded status. -/
def runTaskLoop (obs : Nat → Bool) (result : Nat → MaaStatus) :
    Nat → List RTask → List RTask
  | _, [] => []
  | i, t :: ts =>
    if obs i then
      RTask.mk t.entry (some (result i)) :: runTaskLoop obs result (i + 1) ts
    else t :: ts

/-- Index of the first false observation at or after `i`, clipped to
`n` (the number of plan items): the number of items the loop runs. -/
def firstStop (obs : Nat → Bool) : Nat → Nat → Nat
  | _, 0 => 0
  | i, n + 1 => if obs i then firstStop obs (i + 1) n + 1 else 0

/-- Spec-side notion used by the original claim C1: a case-insensitive
match of `"yes"`/`"y"` (lowercasing done at the character level). -/
def ciYes (s : String) : Bool :=
  let low := String.mk (s.data.map Char.toLower)
  low = "yes" || low = "y"

/-- Normalisation replacing an absent `type` by the explicit
`"select"` (what `GetType` reads into the field). -/
def normOption (o : V2Option) : V2Option :=
  { o with type := if o.type = "" then "select" else o.type }

/-- `normOption` applied to every option definition of a schema map. -/
def normDefs (defs : List (String × V2Option)) : List (String × V2Option) :=
  defs.map (fun p => (p.1, normOption p.2))

/-- The task's own override fragment as a (zero- or one-element)
fragment list: the first document merged by `mergePipelineOverrides`. -/
def taskFragList (task : V2Task) : List Doc :=
  match task.pipelineOverride with
  | some d => [d]
  | none => []

/-- The override fragments the compiler merges for a list of option
references, in merge order: for a select/switch option, the selected
case's fragment followed by the fragments of its nested options; for
an input option, the substituted option-level fragment.  Mirrors the
traversal of `collectOptionOverrides` exactly, fragment by fragment. -/
def overrideFragments (defs : List (String × V2Option)) (cur : String → String) :
    Nat → List String → List Doc
  | 0, _ => []
  | _ + 1, [] => []
  | fuel + 1, n :: rest =>
    (match lookupOpt defs n with
     | none => []
     | some opt =>
       let t := opt.GetType
       if t = "select" ∨ t = "switch" then
         if cur n = "" then []
         else
           match findCase opt.cases (cur n) with
           | none => []
           | some c =>
             (match c.pipelineOverride with
              | some d => [d]
              | none => []) ++
             (if c.option.isEmpty then [] else overrideFragments defs cur fuel c.option)
       else if t = "input" then
         match opt.pipelineOverride with
         | some d => [replaceVariables (collectInputValues n cur opt.inputs) d]
         | none => []
       else []) ++ overrideFragments defs cur fuel rest

/-- The last value assigned under a property key within one entry's
property list (a later binding overrides an earlier one). -/
def lastProp : List (String × Val) → String → Option Val
  | [], _ => none
  | kv :: rest, k =>
    match lastProp rest k with
    | some v => some v
    | none => if kv.1 = k then some kv.2 else none

/-- The last value assigned to `entry.key` within one document,
scanning entries in order with later assignments winning. -/
def docLast : Doc → String → String → Option Val
  | [], _, _ => none
  | e :: rest, t, k =>
    match docLast rest t k with
    | some v => some v
    | none => if e.1 = t then lastProp e.2 k else none

/-- The value assigned to `entry.key` by the *last* fragment of the
list that assigns it — the "later merge wins" reading of an ordered
fragment list. -/
def lastAssigned : List Doc → String → String → Option Val
  | [], _, _ => none
  | d :: rest, t, k =>
    match lastAssigned rest t k with
    | some v => some v
    | none => getKey d t k

/-- Well-formedness of a parsed-JSON document: entry names are unique
and so are the property keys of each entry (Go maps cannot hold
duplicates). -/
def WFdoc (d : Doc) : Prop :=
  (d.map (fun e => e.1)).Nodup ∧ ∀ e ∈ d, (e.2.map (fun kv => kv.1)).Nodup

instance WFdoc.instDecidable (d : Doc) : Decidable (WFdoc d) := by
  unfold WFdoc
  infer_instance

/- ------------------------------------------------------------------
Helper lemmas (shared by several claims).
------------------------------------------------------------------ -/

theorem collectOptionDefaults_nil (defs : List (String × V2Option)) (fuel : Nat) :
    collectOptionDefaults defs fuel [] = [] := by
  cases fuel <;> rfl

theorem collectExpectedOptions_nil (defs : List (String × V2Option))
    (cur : String → String) (fuel : Nat) :
    collectExpectedOptions defs cur fuel [] = [] := by
  cases fuel <;> rfl

/- ------------------------------------------------------------------
C1 — switch default selection.
------------------------------------------------------------------ -/

/-- C1 (counterexample): the original claim says the chosen default of
a switch option is the first declared case whose name is not a
*case-insensitive* match of "yes"/"y".  For the declared cases
`["YES", "No"]` that would be `"No"`, but the code compares against
the four exact literals only and chooses `"YES"` — whose name *is* a
case-insensitive match of "yes" — even though the non-matching case
`"No"` is declared. -/
theorem c1_counterexample :
    collectOptionDefaults
      [("S", ⟨"switch", [⟨"YES", [], none⟩, ⟨"No", [], none⟩], [], none, ""⟩)]
      2 ["S"] = [⟨"S", "YES"⟩]
    ∧ ciYes "YES" = true ∧ ciYes "No" = false :=
  ⟨rfl, by decide, by decide⟩

/-- C1 (amended): for a switch option resolved without a supplied
current value (both in the defaults walk and in the expected-set walk
with an empty stored value), the chosen value is the name of the first
declared case whose name is not one of the four exact literals
`"Yes"`/`"yes"`/`"Y"`/`"y"` (declaration order breaks ties; case names
are non-empty on validated schemas); if every declared case is such a
literal, the resolution still terminates and the literal value `"No"`
is chosen regardless of the declared case names. -/
theorem c1_switch_default (defs : List (String × V2Option)) (n : String)
    (opt : V2Option) (fuel : Nat) (cur : String → String)
    (hlk : lookupOpt defs n = some opt) (ht : opt.GetType = "switch")
    (hcur : cur n = "") :
    (∀ c, opt.cases.find? (fun c => !yesName c.name) = some c → c.name ≠ "" →
      (collectOptionDefaults defs (fuel+1) [n]).head? = some ⟨n, c.name⟩ ∧
      (collectExpectedOptions defs cur (fuel+1) [n]).head? = some ⟨n, c.name⟩) ∧
    (opt.cases.find? (fun c => !yesName c.name) = none → ¬ opt.cases.isEmpty →
      collectOptionDefaults defs (fuel+1) [n] = [⟨n, "No"⟩] ∧
      collectExpectedOptions defs cur (fuel+1) [n] = [⟨n, "No"⟩]) := by
  have h1 : (("switch" : String) = "select") = False := by simp
  have h2 : (("switch" : String) = "switch") = True := by simp
  constructor
  · intro c hc hcn
    rw [collectOptionDefaults, hlk]
    rw [collectExpectedOptions, hlk]
    simp only [ht, h1, h2, if_true, if_false, hcur, hc]
    simp [hcn, collectOptionDefaults_nil, collectExpectedOptions_nil]
  · intro hnone hne
    rw [collectOptionDefaults, hlk]
    rw [collectExpectedOptions, hlk]
    simp only [ht, h1, h2, if_true, if_false, hcur, hnone]
    simp [hne, collectOptionDefaults_nil, collectExpectedOptions_nil]
    decide

/-- C1 (witness): both branches of the amended claim at concrete
inputs — cases `["Yes", "Off"]` choose `"Off"`, and cases
`["Yes", "y"]` fall back to `"No"`. -/
theorem c1_switch_default_witness :
    (collectOptionDefaults [("S", ⟨"switch", [⟨"Yes", [], none⟩, ⟨"Off", [], none⟩], [], none, ""⟩)]
        1 ["S"]).head? = some ⟨"S", "Off"⟩ ∧
    collectOptionDefaults [("T", ⟨"switch", [⟨"Yes", [], none⟩, ⟨"y", [], none⟩], [], none, ""⟩)]
        1 ["T"] = [⟨"T", "No"⟩] := by
  constructor
  · exact ((c1_switch_default
      [("S", ⟨"switch", [⟨"Yes", [], none⟩, ⟨"Off", [], none⟩], [], none, ""⟩)]
      "S" ⟨"switch", [⟨"Yes", [], none⟩, ⟨"Off", [], none⟩], [], none, ""⟩ 0 (fun _ => "")
      rfl rfl rfl).1 ⟨"Off", [], none⟩ rfl (by decide)).1
  · exact ((c1_switch_default
      [("T", ⟨"switch", [⟨"Yes", [], none⟩, ⟨"y", [], none⟩], [], none, ""⟩)]
      "T" ⟨"switch", [⟨"Yes", [], none⟩, ⟨"y", [], none⟩], [], none, ""⟩ 0 (fun _ => "")
      rfl rfl rfl).2 rfl (by decide)).1

/- ------------------------------------------------------------------
C5 — i18n string resolution.
------------------------------------------------------------------ -/

/-- C5: for every string `s` and language `lang`: a string that is not
a `$`-reference (does not begin with `$`, or has length 1) resolves to
itself; with a loaded translation map for `lang` but the stripped key
absent, resolution returns the original `s`; with no loaded
translation map for `lang`, resolution returns the bare key (`s` with
the `$` prefix stripped), not the original `$`-prefixed string. -/
theorem c5_resolve_string (l : V2LoadedI18n) (s lang : String) :
    ((s.data.head? ≠ some '$' ∨ s.length = 1) → ResolveString l s lang = s) ∧
    (∀ r, IsI18nString s = true →
      (l.resolvers.find? (fun p => p.1 = lang)).map (fun p => p.2) = some r →
      r.translations.find? (fun p => p.1 = GetI18nKey s) = none →
      ResolveString l s lang = s) ∧
    (IsI18nString s = true →
      l.resolvers.find? (fun p => p.1 = lang) = none →
      ResolveString l s lang = String.mk s.data.tail) := by
  refine ⟨?_, ?_, ?_⟩
  · intro h
    have hI : IsI18nString s = false := by
      obtain ⟨d⟩ := s
      rw [IsI18nString]
      cases hd : d with
      | nil => rfl
      | cons c rest =>
        subst hd
        rcases h with h | h
        · have hc : c ≠ '$' := by
            intro hc; exact h (by rw [hc]; rfl)
          simp [hc]
        · have hr : rest = [] := by
            simpa [String.length] using h
          simp [hr]
    simp [ResolveString, hI]
  · intro r hI hr htr
    simp [ResolveString, hI, hr, V2I18nResolver.Resolve, htr]
  · intro hI hr
    simp [ResolveString, hI, hr, GetI18nKey]

/-- C5 (witness): a direct string, a known language with a missing
key, and an unknown language, all at concrete inputs. -/
theorem c5_resolve_string_witness :
    ResolveString ⟨[("en", ⟨[("key", "val")]⟩)]⟩ "plain" "en" = "plain" ∧
    ResolveString ⟨[("en", ⟨[("key", "val")]⟩)]⟩ "$miss" "en" = "$miss" ∧
    ResolveString ⟨[("en", ⟨[("key", "val")]⟩)]⟩ "$key" "de" = "key" := by
  refine ⟨?_, ?_, ?_⟩
  · exact (c5_resolve_string ⟨[("en", ⟨[("key", "val")]⟩)]⟩ "plain" "en").1
      (Or.inl (by decide))
  · exact (c5_resolve_string ⟨[("en", ⟨[("key", "val")]⟩)]⟩ "$miss" "en").2.1
      ⟨[("key", "val")]⟩ (by decide) rfl rfl
  · exact ((c5_resolve_string ⟨[("en", ⟨[("key", "val")]⟩)]⟩ "$key" "de").2.2
      (by decide) rfl).trans (by decide)

/- ------------------------------------------------------------------
C10 — absent option type defaults to "select".
------------------------------------------------------------------ -/

theorem GetType_normOption (o : V2Option) : (normOption o).GetType = o.GetType := by
  by_cases h : o.type = "" <;> simp [normOption, V2Option.GetType, h]

theorem cases_normOption (o : V2Option) : (normOption o).cases = o.cases := rfl

theorem inputs_normOption (o : V2Option) : (normOption o).inputs = o.inputs := rfl

theorem defaultCase_normOption (o : V2Option) :
    (normOption o).defaultCase = o.defaultCase := rfl

theorem pipelineOverride_normOption (o : V2Option) :
    (normOption o).pipelineOverride = o.pipelineOverride := rfl

theorem lookupOpt_normDefs (defs : List (String × V2Option)) (n : String) :
    lookupOpt (normDefs defs) n = (lookupOpt defs n).map normOption := by
  induction defs with
  | nil => rfl
  | cons p rest ih =>
    by_cases h : p.1 = n
    · simp [normDefs, lookupOpt, List.find?_cons, h]
    · simp [normDefs, lookupOpt, List.find?_cons, h]
      simpa [normDefs, lookupOpt] using ih

theorem defaults_normDefs (defs : List (String × V2Option)) :
    ∀ fuel names, collectOptionDefaults (normDefs defs) fuel names =
      collectOptionDefaults defs fuel names := by
  intro fuel
  induction fuel with
  | zero => intro names; rfl
  | succ f ih =>
    intro names
    cases names with
    | nil => rfl
    | cons n rest =>
      rw [collectOptionDefaults, collectOptionDefaults, lookupOpt_normDefs]
      cases h : lookupOpt defs n with
      | none => simp [ih]
      | some opt =>
        simp only [Option.map_some', GetType_normOption, cases_normOption,
          inputs_normOption, defaultCase_normOption, pipelineOverride_normOption, ih]

theorem expected_normDefs (defs : List (String × V2Option)) (cur : String → String) :
    ∀ fuel names, collectExpectedOptions (normDefs defs) cur fuel names =
      collectExpectedOptions defs cur fuel names := by
  intro fuel
  induction fuel with
  | zero => intro names; rfl
  | succ f ih =>
    intro names
    cases names with
    | nil => rfl
    | cons n rest =>
      rw [collectExpectedOptions, collectExpectedOptions, lookupOpt_normDefs]
      cases h : lookupOpt defs n with
      | none => simp [ih]
      | some opt =>
        simp only [Option.map_some', GetType_normOption, cases_normOption,
          inputs_normOption, defaultCase_normOption, pipelineOverride_normOption, ih]

theorem overrides_normDefs (defs : List (String × V2Option)) (cur : String → String) :
    ∀ fuel merged names, collectOptionOverrides (normDefs defs) cur fuel merged names =
      collectOptionOverrides defs cur fuel merged names := by
  intro fuel
  induction fuel with
  | zero => intro merged names; rfl
  | succ f ih =>
    intro merged names
    cases names with
    | nil => rfl
    | cons n rest =>
      rw [collectOptionOverrides, collectOptionOverrides, lookupOpt_normDefs]
      cases h : lookupOpt defs n with
      | none => simp [ih]
      | some opt =>
        simp only [Option.map_some', GetType_normOption, cases_normOption,
          inputs_normOption, defaultCase_normOption, pipelineOverride_normOption, ih]

/-- C10: for every option whose `type` field is absent or empty,
`GetType` returns `"select"`; such an option is validated under the
select/switch branch with type `"select"` (never rejected as an
invalid type), and making the `"select"` type explicit in every
option definition changes nothing in the defaults walk, the
expected-set walk, or the override compilation walk. -/
theorem c10_empty_type_select (o : V2Option) (h : o.type = "") :
    o.GetType = "select" ∧
    (∀ regexOk defs n, validateOption regexOk defs n o = validateSelectSwitch defs n "select" o) ∧
    (∀ defs fuel names, collectOptionDefaults (normDefs defs) fuel names =
      collectOptionDefaults defs fuel names) ∧
    (∀ defs cur fuel names, collectExpectedOptions (normDefs defs) cur fuel names =
      collectExpectedOptions defs cur fuel names) ∧
    (∀ defs cur fuel merged names, collectOptionOverrides (normDefs defs) cur fuel merged names =
      collectOptionOverrides defs cur fuel merged names) := by
  have hGT : o.GetType = "select" := by simp [V2Option.GetType, h]
  exact ⟨hGT, fun regexOk defs n => by simp [validateOption, hGT],
    fun defs => defaults_normDefs defs,
    fun defs cur => expected_normDefs defs cur,
    fun defs cur => overrides_normDefs defs cur⟩

/-- C10 (witness): a concrete option with an empty `type` field. -/
theorem c10_empty_type_select_witness :
    (V2Option.mk "" [⟨"A", [], none⟩] [] none "").GetType = "select" ∧
    validateOption (fun _ => true) [] "o" (V2Option.mk "" [⟨"A", [], none⟩] [] none "") =
      validateSelectSwitch [] "o" "select" (V2Option.mk "" [⟨"A", [], none⟩] [] none "") ∧
    collectOptionDefaults (normDefs [("o", V2Option.mk "" [⟨"A", [], none⟩] [] none "")]) 2 ["o"] =
      collectOptionDefaults [("o", V2Option.mk "" [⟨"A", [], none⟩] [] none "")] 2 ["o"] := by
  refine ⟨(c10_empty_type_select _ rfl).1, ?_, ?_⟩
  · exact (c10_empty_type_select (V2Option.mk "" [⟨"A", [], none⟩] [] none "") rfl).2.1
      (fun _ => true) [] "o"
  · exact (c10_empty_type_select (V2Option.mk "" [⟨"A", [], none⟩] [] none "") rfl).2.2.1
      [("o", V2Option.mk "" [⟨"A", [], none⟩] [] none "")] 2 ["o"]

/- ------------------------------------------------------------------
C8 — select/switch case-cardinality validation.
------------------------------------------------------------------ -/

theorem exSeq_ok_left (a b : Except SchemaError Unit) (h : exSeq a b = .ok ()) :
    a = .ok () := by
  cases a with
  | error e => simp [exSeq] at h
  | ok u => cases u; rfl

theorem exSeq_ok_right (a b : Except SchemaError Unit) (h : exSeq a b = .ok ()) :
    b = .ok () := by
  cases a with
  | error e => simp [exSeq] at h
  | ok u => simpa [exSeq] using h

theorem checkAll_ok_mem {α : Type} (f : α → Except SchemaError Unit) (l : List α)
    (x : α) (h : checkAll f l = .ok ()) (hx : x ∈ l) : f x = .ok () := by
  induction l with
  | nil => cases hx
  | cons y ys ih =>
    rw [checkAll] at h
    rcases List.mem_cons.mp hx with rfl | hx'
    · exact exSeq_ok_left _ _ h
    · exact ih (exSeq_ok_right _ _ h) hx'

theorem validateV2_ok_options (regexOk : String → Bool) (iface : V2Interface)
    (hok : validateV2 regexOk iface = .ok ()) :
    checkAll (fun p => validateOption regexOk iface.option p.1 p.2) iface.option = .ok () := by
  unfold validateV2 at hok
  split at hok
  · simp at hok
  · split at hok
    · simp at hok
    · exact exSeq_ok_right _ _ (exSeq_ok_right _ _ (exSeq_ok_right _ _ (exSeq_ok_right _ _ hok)))

theorem validateOption_ok_cardinality (regexOk : String → Bool)
    (defs : List (String × V2Option)) (n : String) (opt : V2Option)
    (ht : opt.GetType = "select" ∨ opt.GetType = "switch")
    (hok : validateOption regexOk defs n opt = .ok ()) :
    checkCardinality n opt.GetType opt = .ok () := by
  unfold validateOption at hok
  rw [if_pos ht] at hok
  exact exSeq_ok_left _ _ hok

/-- C8: schema validation fails for every select or switch option
declaring zero cases, and for every switch option declaring a number
of cases different from 2; a select option with one or more cases
passes the cardinality check. -/
theorem c8_case_cardinality (regexOk : String → Bool) (iface : V2Interface)
    (n : String) (opt : V2Option) (hmem : (n, opt) ∈ iface.option) :
    ((opt.GetType = "select" ∨ opt.GetType = "switch") → opt.cases.length = 0 →
      validateV2 regexOk iface ≠ .ok ()) ∧
    (opt.GetType = "switch" → opt.cases.length ≠ 2 →
      validateV2 regexOk iface ≠ .ok ()) ∧
    (opt.GetType = "select" → 0 < opt.cases.length →
      checkCardinality n opt.GetType opt = .ok ()) := by
  refine ⟨?_, ?_, ?_⟩
  · intro ht hz hok
    have h1 := checkAll_ok_mem _ _ _ (validateV2_ok_options _ _ hok) hmem
    have h2 := validateOption_ok_cardinality regexOk iface.option n opt ht h1
    rw [checkCardinality, if_pos hz] at h2
    simp at h2
  · intro ht hn2 hok
    have h1 := checkAll_ok_mem _ _ _ (validateV2_ok_options _ _ hok) hmem
    have h2 := validateOption_ok_cardinality regexOk iface.option n opt (Or.inr ht) h1
    rw [checkCardinality] at h2
    by_cases hz : opt.cases.length = 0
    · rw [if_pos hz] at h2; simp at h2
    · rw [if_neg hz, if_pos ⟨ht, hn2⟩] at h2; simp at h2
  · intro ht hpos
    rw [checkCardinality, if_neg (by omega), if_neg ?_]
    rintro ⟨h, _⟩
    rw [ht] at h
    exact absurd h (by decide)

/-- C8 (witness): a select option with zero cases and a switch option
with one case are both rejected; a select option with one case passes
the cardinality check. -/
theorem c8_case_cardinality_witness :
    validateV2 (fun _ => true)
      ⟨2, "app", [], [], [], none, [], [("z", ⟨"select", [], [], none, ""⟩)]⟩ ≠ .ok () ∧
    validateV2 (fun _ => true)
      ⟨2, "app", [], [], [], none, [], [("s", ⟨"switch", [⟨"A", [], none⟩], [], none, ""⟩)]⟩ ≠ .ok () ∧
    checkCardinality "k" (V2Option.mk "select" [⟨"A", [], none⟩] [] none "").GetType
      (V2Option.mk "select" [⟨"A", [], none⟩] [] none "") = .ok () := by
  refine ⟨?_, ?_, ?_⟩
  · exact (c8_case_cardinality (fun _ => true) _ "z" ⟨"select", [], [], none, ""⟩
      (List.mem_singleton.mpr rfl)).1 (Or.inl rfl) rfl
  · exact (c8_case_cardinality (fun _ => true) _ "s" ⟨"switch", [⟨"A", [], none⟩], [], none, ""⟩
      (List.mem_singleton.mpr rfl)).2.1 rfl (by decide)
  · exact (c8_case_cardinality (fun _ => true)
      ⟨2, "app", [], [], [], none, [], [("k", ⟨"select", [⟨"A", [], none⟩], [], none, ""⟩)]⟩
      "k" ⟨"select", [⟨"A", [], none⟩], [], none, ""⟩
      (List.mem_singleton.mpr rfl)).2.2 rfl (by decide)

/- ------------------------------------------------------------------
C6 — Start() on an active session is a no-op.
C7 — the execution loop survives task failures, aborts only on stop.
------------------------------------------------------------------ -/

/-- C6: calling `Start` when the lifecycle state is already active is
a no-op with a log line — no acquisition is performed and no second
"session active" notification is emitted — so two `Start` calls in
immediate succession (the first one successful) perform exactly one
acquisition sequence and emit exactly one "session active"
(`engine:running ← true`) notification. -/
theorem c6_start_noop (st : EngineState) (o o2 : AcqOutcome)
    (h : st.isRunning = true) :
    startEngine st o = (st, [.logLine "engine is already running"]) ∧
    ((startEngine (EngineState.mk false false) .success).2 ++
     (startEngine (startEngine (EngineState.mk false false) .success).1 o2).2).count
        (EngineEvent.engineRunning true) = 1 ∧
    ((startEngine (EngineState.mk false false) .success).2 ++
     (startEngine (startEngine (EngineState.mk false false) .success).1 o2).2).count
        EngineEvent.acquisitionRun = 1 := by
  have hrun : ∀ o', startEngine (EngineState.mk true true) o' =
      (EngineState.mk true true, [.logLine "engine is already running"]) := fun _ => rfl
  refine ⟨?_, ?_, ?_⟩
  · simp [startEngine, h]
  · rw [show (startEngine (EngineState.mk false false) .success).1 = EngineState.mk true true
        from rfl, hrun o2]
    decide
  · rw [show (startEngine (EngineState.mk false false) .success).1 = EngineState.mk true true
        from rfl, hrun o2]
    decide

/-- C6 (witness): the no-op branch at a concrete active state. -/
theorem c6_start_noop_witness :
    startEngine (EngineState.mk true true) .success =
      (EngineState.mk true true, [.logLine "engine is already running"]) ∧
    ((startEngine (EngineState.mk false false) .success).2 ++
     (startEngine (startEngine (EngineState.mk false false) .success).1 .success).2).count
        (EngineEvent.engineRunning true) = 1 :=
  ⟨(c6_start_noop (EngineState.mk true true) .success .success rfl).1,
   (c6_start_noop (EngineState.mk true true) .success .success rfl).2.1⟩

/-- C7: the execution loop records the produced status (success or
not) on the executed task alone and always proceeds to the next plan
item; it abandons the remainder exactly at the first false observation
of the running flag (`firstStop` only reads the observations, never
the statuses), and when the flag stays true every task runs and
receives its status. -/
theorem c7_loop_failures_continue (obs : Nat → Bool) (result : Nat → MaaStatus) :
    (∀ i ts, runTaskLoop obs result i ts =
      (ts.take (firstStop obs i ts.length)).mapIdx
        (fun j t => RTask.mk t.entry (some (result (i + j)))) ++
      ts.drop (firstStop obs i ts.length)) ∧
    ((∀ j, obs j = true) → ∀ ts, runTaskLoop obs result 0 ts =
      ts.mapIdx (fun j t => RTask.mk t.entry (some (result j)))) := by
  have main : ∀ ts i, runTaskLoop obs result i ts =
      (ts.take (firstStop obs i ts.length)).mapIdx
        (fun j t => RTask.mk t.entry (some (result (i + j)))) ++
      ts.drop (firstStop obs i ts.length) := by
    intro ts
    induction ts with
    | nil => intro i; rfl
    | cons t ts' ih =>
      intro i
      rw [runTaskLoop]
      by_cases ho : obs i
      · rw [if_pos ho]
        have hfs : firstStop obs i (t :: ts').length = firstStop obs (i+1) ts'.length + 1 := by
          simp [firstStop, ho]
        rw [hfs, ih (i+1)]
        simp only [List.take_succ_cons, List.drop_succ_cons, List.mapIdx_cons]
        have hfun : (fun j (x : RTask) => RTask.mk x.entry (some (result (i + 1 + j)))) =
            (fun j (x : RTask) => RTask.mk x.entry (some (result (i + (j + 1))))) := by
          funext j x
          have hj : i + 1 + j = i + (j + 1) := by omega
          rw [hj]
        rw [hfun]
        simp
      · rw [if_neg ho]
        have hfs : firstStop obs i (t :: ts').length = 0 := by
          simp [firstStop, ho]
        rw [hfs]
        simp
  refine ⟨fun i ts => main ts i, fun hall ts => ?_⟩
  have hfs : ∀ i n, firstStop obs i n = n := by
    intro i n
    induction n generalizing i with
    | zero => rfl
    | succ m ih => simp [firstStop, hall, ih]
  rw [main ts 0, hfs, List.take_length, List.drop_length]
  simp

/-- C7 (witness): with the flag always true a failed first task does
not stop the second; with the flag withdrawn after one item the second
task is left untouched. -/
theorem c7_loop_failures_continue_witness :
    runTaskLoop (fun _ => true) (fun _ => MaaStatus.failed) 0 [⟨"a", none⟩, ⟨"b", none⟩] =
      [⟨"a", some .failed⟩, ⟨"b", some .failed⟩] ∧
    runTaskLoop (fun i => decide (i < 1)) (fun _ => MaaStatus.succeeded) 0
        [⟨"a", none⟩, ⟨"b", none⟩] =
      [⟨"a", some .succeeded⟩, ⟨"b", none⟩] := by
  constructor
  · exact ((c7_loop_failures_continue (fun _ => true) (fun _ => MaaStatus.failed)).2
      (fun _ => rfl) [⟨"a", none⟩, ⟨"b", none⟩]).trans (by decide)
  · exact ((c7_loop_failures_continue (fun i => decide (i < 1))
      (fun _ => MaaStatus.succeeded)).1 0 [⟨"a", none⟩, ⟨"b", none⟩]).trans (by decide)

/- ------------------------------------------------------------------
C4 — placeholder substitution in input override fragments.
------------------------------------------------------------------ -/
theorem matchExactVar_some (s nm : String) (h : matchExactVar s = some nm) :
    s = "\x7b" ++ nm ++ "\x7d" ∧ nm.data ≠ [] ∧ nm.data.all isWordChar = true := by
  obtain ⟨d⟩ := s
  rw [matchExactVar] at h
  split at h
  · rename_i rest heqd
    split at h
    · rename_i heql
      have h' : (if (!rest.dropLast.isEmpty && rest.dropLast.all isWordChar) = true
          then some (String.mk rest.dropLast) else none) = some nm := h
      clear h
      split at h'
      · rename_i hcond
        injection h' with hnm
        subst hnm
        have hrest : rest.dropLast ++ ['}'] = rest :=
          List.dropLast_append_getLast? _ heql
        obtain ⟨h1, h2⟩ := by simpa using hcond
        refine ⟨?_, by simpa [List.isEmpty_iff] using h1, by simpa using h2⟩
        have : d = '{' :: rest := heqd
        subst this
        conv_lhs => rw [show (String.mk ('{' :: rest)) =
          String.mk ('{' :: (rest.dropLast ++ ['}'])) from by rw [hrest]]
        rfl
      · exact Option.noConfusion h'
    · exact Option.noConfusion h
  · exact Option.noConfusion h

theorem matchExactVar_eq (name : String) (hne : name.data ≠ [])
    (hw : name.data.all isWordChar = true) :
    matchExactVar ("\x7b" ++ name ++ "\x7d") = some name := by
  obtain ⟨d⟩ := name
  have hdata : ("\x7b" ++ String.mk d ++ "\x7d").data = '{' :: (d ++ ['}']) := by
    simp [String.data_append]
  rw [matchExactVar, hdata]
  simp only [List.getLast?_concat, List.dropLast_concat]
  have hne' : ¬ d.isEmpty := by simpa [List.isEmpty_iff] using hne
  simp [hne', hw]

theorem replaceValueList_map (ivs : List (String × InputValue)) (xs : List Val) :
    replaceValueList ivs xs = xs.map (replaceValue ivs) := by
  induction xs with
  | nil => rfl
  | cons x xs ih => rw [replaceValueList, ih, List.map_cons]

theorem replaceValueObj_map (ivs : List (String × InputValue)) (kvs : List (String × Val)) :
    replaceValueObj ivs kvs = kvs.map (fun kv => (kv.1, replaceValue ivs kv.2)) := by
  induction kvs with
  | nil => rfl
  | cons kv kvs ih => rw [replaceValueObj, ih, List.map_cons]

/-- C4 (counterexample): the original claim promises kind conversion
for a string that is exactly `\x7bname\x7d` for *every* declared input
name, but the anchored pattern `^\x7b(\w+)\x7d$` only matches names
made of word characters.  For the declared int-typed input named
`a-b` with value `"5"` (the validator only requires input names to be
non-empty), the string exactly `\x7ba-b\x7d` falls through to plain
textual replacement and yields the *string* `"5"` — not the
kind-converted number `5` the claim requires. -/
theorem c4_counterexample :
    replaceValue [("a-b", ⟨"5", "int"⟩)] (.str "\x7ba-b\x7d") = .str "5" ∧
    convertValue "5" "int" = .num 5 ∧
    Val.str "5" ≠ Val.num 5 :=
  ⟨rfl, rfl, fun h => Val.noConfusion h⟩

/-- C4 (amended): in placeholder substitution, a string that is
exactly `\x7bname\x7d` for a declared input name consisting of one or
more word characters (`[0-9A-Za-z_]`) is replaced by that input's
value converted per its value kind (int parsed with Atoi, bool true
iff the value is "true"/"True"/"1", otherwise the string itself); any
other string — including one that is exactly `\x7bname\x7d` for a
declared name containing a non-word character — undergoes plain
textual replacement, with no type conversion, of every known input's
placeholder; substitution recurses through nested arrays and objects
preserving structure, and non-string leaves are returned unchanged. -/
theorem c4_placeholder_substitution (ivs : List (String × InputValue)) :
    (∀ name iv, name.data ≠ [] → name.data.all isWordChar = true →
      lookupIV ivs name = some iv →
      replaceValue ivs (.str ("\x7b" ++ name ++ "\x7d")) = convertValue iv.value iv.pipelineType) ∧
    (∀ s, (∀ nm, s = "\x7b" ++ nm ++ "\x7d" → nm.data ≠ [] →
        nm.data.all isWordChar = true → lookupIV ivs nm = none) →
      replaceValue ivs (.str s) = .str (substAll ivs s)) ∧
    (∀ xs, replaceValue ivs (.arr xs) = .arr (xs.map (replaceValue ivs))) ∧
    (∀ kvs, replaceValue ivs (.obj kvs) =
      .obj (kvs.map (fun kv => (kv.1, replaceValue ivs kv.2)))) ∧
    (∀ i b, replaceValue ivs (.num i) = .num i ∧ replaceValue ivs (.bool b) = .bool b ∧
      replaceValue ivs .null = .null) ∧
    (∀ v, convertValue v "int" =
        (match atoi? v with | some i => .num i | none => .str v) ∧
      convertValue v "bool" = .bool (v = "true" || v = "True" || v = "1") ∧
      (∀ pt, pt ≠ "int" → pt ≠ "bool" → convertValue v pt = .str v)) := by
  refine ⟨?_, ?_, ?_, ?_, ?_, ?_⟩
  · intro name iv hne hw hlk
    rw [replaceValue, matchExactVar_eq name hne hw]
    simp only [hlk]
  · intro s hs
    rw [replaceValue]
    cases hm : matchExactVar s with
    | none => rfl
    | some nm =>
      obtain ⟨heq, hne, hw⟩ := matchExactVar_some s nm hm
      simp only [hs nm heq hne hw]
  · intro xs; rw [replaceValue, replaceValueList_map]
  · intro kvs; rw [replaceValue, replaceValueObj_map]
  · exact fun i b => ⟨rfl, rfl, rfl⟩
  · intro v
    refine ⟨rfl, rfl, fun pt h1 h2 => ?_⟩
    rw [convertValue, if_neg h1, if_neg h2]

/-- C4 (witness): an exact int-typed placeholder with a word-character
name converts to a number, a substring placeholder is textually
replaced, an exact placeholder whose declared name holds a non-word
character is textually replaced without conversion, and arrays
recurse. -/
theorem c4_placeholder_substitution_witness :
    replaceValue [("x", ⟨"5", "int"⟩)] (.str "{x}") = .num 5 ∧
    replaceValue [("x", ⟨"5", "int"⟩)] (.str "v={x}!") = .str "v=5!" ∧
    replaceValue [("a-b", ⟨"7", "int"⟩)] (.str "\x7ba-b\x7d") = .str "7" ∧
    replaceValue [("x", ⟨"5", "int"⟩)] (.arr [.str "{x}", .bool true]) =
      .arr [.num 5, .bool true] := by
  refine ⟨?_, ?_, ?_, ?_⟩
  · exact (c4_placeholder_substitution [("x", ⟨"5", "int"⟩)]).1 "x" ⟨"5", "int"⟩
      (by decide) (by decide) rfl
  · refine ((c4_placeholder_substitution [("x", ⟨"5", "int"⟩)]).2.1 "v={x}!" ?_).trans rfl
    intro nm heq hne hw
    have hh := congrArg (fun s => s.data.head?) heq
    simp [String.data_append] at hh
  · refine ((c4_placeholder_substitution [("a-b", ⟨"7", "int"⟩)]).2.1 "\x7ba-b\x7d" ?_).trans rfl
    intro nm heq hne hw
    exfalso
    have hd := congrArg (fun s => s.data.tail.dropLast) heq
    simp [String.data_append] at hd
    rw [← hd] at hw
    exact absurd hw (by decide)
  · exact (c4_placeholder_substitution [("x", ⟨"5", "int"⟩)]).2.2.1 [.str "{x}", .bool true]

/- ------------------------------------------------------------------
C9 — the override compiler's input fallback is stored-else-default,
never the type-based zero.
------------------------------------------------------------------ -/

/-- C9: the value the override compiler substitutes for an input is
the stored config value under `optionName.inputName` if non-empty,
else the input's declared default literal; the type-based zero
fallback (`"false"` for bool, `"0"` for int) used by the defaults and
expected-set walks is never applied here, so with an empty stored
value and an empty declared default the empty string is substituted. -/
theorem c9_input_no_type_zero (n : String) (cur : String → String)
    (pre post : List V2OptionInput) (inp : V2OptionInput) :
    collectInputValues n cur (pre ++ inp :: post) =
      collectInputValues n cur pre ++
        (inp.name, InputValue.mk
          (if cur (n ++ "." ++ inp.name) = "" then inp.default
           else cur (n ++ "." ++ inp.name)) inp.pipelineType) ::
        collectInputValues n cur post ∧
    (cur (n ++ "." ++ inp.name) = "" → inp.default = "" →
      collectInputValues n cur [inp] = [(inp.name, InputValue.mk "" inp.pipelineType)]) ∧
    (inp.default = "" → defaultInputValue inp = typeZero inp.pipelineType) ∧
    typeZero "bool" = "false" ∧ typeZero "int" = "0" := by
  refine ⟨?_, ?_, ?_, rfl, rfl⟩
  · simp [collectInputValues]
  · intro hcur hdef
    simp [collectInputValues, hcur, hdef]
  · intro hdef
    simp [defaultInputValue, hdef]

/-- C9 (witness): a bool-typed input with empty stored value and empty
default yields the empty string in the compiled override (`"v=e"`, not
`"v=falsee"`), while the defaults walk for the same option stores
`"false"`. -/
theorem c9_input_no_type_zero_witness :
    collectInputValues "O" (fun _ => "") [V2OptionInput.mk "x" "" "bool" ""] =
      [("x", InputValue.mk "" "bool")] ∧
    collectOptionOverrides
      [("O", ⟨"input", [], [⟨"x", "", "bool", ""⟩],
        some [("E", [("k", .str "v={x}e")])], ""⟩)]
      (fun _ => "") 1 [] ["O"] = [("E", [("k", .str "v=e")])] ∧
    collectOptionDefaults
      [("O", ⟨"input", [], [⟨"x", "", "bool", ""⟩],
        some [("E", [("k", .str "v={x}e")])], ""⟩)]
      1 ["O"] = [⟨"O.x", "false"⟩] := by
  refine ⟨?_, rfl, rfl⟩
  exact (c9_input_no_type_zero "O" (fun _ => "") [] [] (V2OptionInput.mk "x" "" "bool" "")).2.1
    rfl rfl


/- ------------------------------------------------------------------
C3 — override merge order: later fragment wins per entry+key.
------------------------------------------------------------------ -/

theorem lookupEntry_setKey (b : Doc) (t k : String) (v : Val) (u : String) :
    lookupEntry (setKey b t k v) u =
      if u = t then (lookupEntry b t).map (fun ps => setProp ps k v)
      else lookupEntry b u := by
  induction b with
  | nil => by_cases h : u = t <;> simp [setKey, lookupEntry, h]
  | cons e rest ih =>
    obtain ⟨en, eps⟩ := e
    by_cases he : en = t
    · subst he
      by_cases hu : u = en
      · subst hu
        simp [setKey, lookupEntry, List.find?_cons]
      · have hu' : en ≠ u := fun h => hu h.symm
        simp [setKey, lookupEntry, List.find?_cons, hu, hu']
    · by_cases hu : u = en
      · subst hu
        have he' : ¬ u = t := fun h => he h
        simp [setKey, lookupEntry, List.find?_cons, he, he']
      · have hu' : en ≠ u := fun h => hu h.symm
        simp only [setKey, if_neg he, lookupEntry, List.find?_cons, hu'] at ih ⊢
        simpa [lookupEntry, hu', he] using ih

theorem find?_setProp (props : List (String × Val)) (k : String) (v : Val) (u : String) :
    ((setProp props k v).find? (fun kv => kv.1 = u)).map (fun kv => kv.2) =
      if u = k then some v
      else (props.find? (fun kv => kv.1 = u)).map (fun kv => kv.2) := by
  induction props with
  | nil =>
    by_cases h : u = k
    · simp [setProp, List.find?_cons, h]
    · have h' : ¬ k = u := fun hh => h hh.symm
      simp [setProp, List.find?_cons, h, h']
  | cons kv rest ih =>
    obtain ⟨pk, pv⟩ := kv
    by_cases hp : pk = k
    · subst hp
      by_cases hu : u = pk
      · subst hu
        simp [setProp, List.find?_cons]
      · have hu' : pk ≠ u := fun h => hu h.symm
        simp [setProp, List.find?_cons, hu, hu']
    · by_cases hu : u = pk
      · subst hu
        have hne : ¬ u = k := fun h => hp h
        simp [setProp, List.find?_cons, hp, hne]
      · have hu' : pk ≠ u := fun h => hu h.symm
        simp only [setProp, if_neg hp, List.find?_cons, hu'] at ih ⊢
        simpa [hu', hp] using ih

theorem getKey_setKey (b : Doc) (t k : String) (v : Val) (u j : String) :
    getKey (setKey b t k v) u j =
      if u = t ∧ (lookupEntry b t).isSome then
        (if j = k then some v else getKey b u j)
      else getKey b u j := by
  by_cases hu : u = t
  · subst hu
    cases hl : lookupEntry b u with
    | none => simp [getKey, lookupEntry_setKey, hl]
    | some ps =>
      by_cases hj : j = k
      · simp [getKey, lookupEntry_setKey, hl, find?_setProp, hj]
      · simp [getKey, lookupEntry_setKey, hl, find?_setProp, hj]
  · simp [getKey, lookupEntry_setKey, hu]

theorem getKey_ensureEntry (b : Doc) (t u j : String) :
    getKey (ensureEntry b t) u j = getKey b u j := by
  rw [ensureEntry]
  by_cases h : (lookupEntry b t).isSome
  · rw [if_pos h]
  · rw [if_neg h, getKey, getKey, lookupEntry, lookupEntry, List.find?_append]
    cases hf : b.find? (fun e : String × List (String × Val) => e.1 = u) with
    | some e => rfl
    | none =>
      by_cases hu : u = t
      · subst hu
        simp [List.find?_cons]
      · have hu' : ¬ t = u := fun hh => hu hh.symm
        simp [List.find?_cons, hu']

theorem lookupEntry_ensureEntry_isSome (b : Doc) (t : String) :
    (lookupEntry (ensureEntry b t) t).isSome := by
  rw [ensureEntry]
  by_cases h : (lookupEntry b t).isSome
  · rw [if_pos h]; exact h
  · rw [if_neg h, lookupEntry, List.find?_append]
    cases hf : b.find? (fun e : String × List (String × Val) => e.1 = t) with
    | some e => exact absurd (by rw [lookupEntry, hf]; rfl) h
    | none => simp [List.find?_cons]

theorem getKey_foldProps (t : String) (props : List (String × Val)) :
    ∀ b : Doc, (lookupEntry b t).isSome → ∀ u j,
      getKey (props.foldl (fun b kv => setKey b t kv.1 kv.2) b) u j =
        (if u = t then
          (match lastProp props j with
           | some v => some v
           | none => getKey b u j)
         else getKey b u j) := by
  induction props with
  | nil =>
    intro b hb u j
    by_cases hu : u = t <;> simp [lastProp, hu]
  | cons kv rest ih =>
    intro b hb u j
    rw [List.foldl_cons]
    have hb' : (lookupEntry (setKey b t kv.1 kv.2) t).isSome := by
      rw [lookupEntry_setKey, if_pos rfl]
      cases hl : lookupEntry b t with
      | none => rw [hl] at hb; simp at hb
      | some ps => simp
    rw [ih (setKey b t kv.1 kv.2) hb' u j]
    by_cases hu : u = t
    · subst hu
      rw [lastProp]
      cases hlp : lastProp rest j with
      | some v => simp
      | none =>
        simp only [if_pos rfl]
        rw [getKey_setKey]
        simp only [if_true, and_true, true_and, hb, if_pos rfl]
        by_cases hj : j = kv.1
        · have hj' : kv.1 = j := hj.symm
          rw [if_pos hj, if_pos hj']
        · have hj' : ¬ kv.1 = j := fun h => hj h.symm
          rw [if_neg hj, if_neg hj']
    · rw [if_neg hu, if_neg hu, getKey_setKey, if_neg (fun hc => hu hc.1)]

theorem getKey_mergeOverride (ov : Doc) : ∀ (b : Doc) (u j : String),
    getKey (mergeOverride b ov) u j =
      (match docLast ov u j with
       | some v => some v
       | none => getKey b u j) := by
  induction ov with
  | nil => intro b u j; rw [mergeOverride]; rfl
  | cons e rest ih =>
    intro b u j
    rw [mergeOverride, List.foldl_cons]
    have hstep : ∀ x : Doc, List.foldl
        (fun b e => e.2.foldl (fun b kv => setKey b e.1 kv.1 kv.2) (ensureEntry b e.1)) x rest =
        mergeOverride x rest := fun x => by rw [mergeOverride]
    rw [hstep, ih]
    have hent := getKey_foldProps e.1 e.2 (ensureEntry b e.1)
      (lookupEntry_ensureEntry_isSome b e.1) u j
    rw [docLast]
    cases hdl : docLast rest u j with
    | some v => simp
    | none =>
      simp only []
      rw [hent]
      by_cases hu : u = e.1
      · have hu' : e.1 = u := hu.symm
        rw [if_pos hu, if_pos hu']
        cases hlp : lastProp e.2 j with
        | some v => simp
        | none => simp [getKey_ensureEntry]
      · have hu' : ¬ e.1 = u := fun h => hu h.symm
        rw [if_neg hu, if_neg hu', getKey_ensureEntry]

theorem lastProp_of_not_mem (props : List (String × Val)) (k : String)
    (h : ∀ kv ∈ props, kv.1 ≠ k) : lastProp props k = none := by
  induction props with
  | nil => rfl
  | cons kv rest ih =>
    rw [lastProp, ih (fun x hx => h x (List.mem_cons_of_mem kv hx))]
    simp [h kv (List.mem_cons_self kv rest)]

theorem lastProp_nodup (props : List (String × Val)) (k : String)
    (h : (props.map (fun kv => kv.1)).Nodup) :
    lastProp props k = (props.find? (fun kv => kv.1 = k)).map (fun kv => kv.2) := by
  induction props with
  | nil => rfl
  | cons kv rest ih =>
    rw [List.map_cons] at h
    obtain ⟨hh, ht⟩ := List.nodup_cons.mp h
    rw [lastProp, List.find?_cons]
    by_cases hk : kv.1 = k
    · have : lastProp rest k = none := by
        apply lastProp_of_not_mem
        intro x hx hxk
        rw [← hk] at hxk
        exact hh (hxk ▸ List.mem_map_of_mem (fun kv => kv.1) hx)
      rw [this]
      simp [hk]
    · rw [ih ht]
      cases hf : (rest.find? (fun kv => kv.1 = k)).map (fun kv => kv.2) with
      | some v => simp [hf, hk]
      | none => simp [hf, hk]

theorem docLast_of_not_mem (d : Doc) (t k : String)
    (h : ∀ e ∈ d, e.1 ≠ t) : docLast d t k = none := by
  induction d with
  | nil => rfl
  | cons e rest ih =>
    rw [docLast, ih (fun x hx => h x (List.mem_cons_of_mem e hx))]
    simp [h e (List.mem_cons_self e rest)]

theorem docLast_wf (d : Doc) (hWF : WFdoc d) (t k : String) :
    docLast d t k = getKey d t k := by
  obtain ⟨hnames, hprops⟩ := hWF
  induction d with
  | nil => rfl
  | cons e rest ih =>
    rw [List.map_cons] at hnames
    obtain ⟨hh, ht⟩ := List.nodup_cons.mp hnames
    by_cases het : e.1 = t
    · have hnone : docLast rest t k = none := by
        apply docLast_of_not_mem
        intro x hx hxt
        rw [← het] at hxt
        exact hh (hxt ▸ List.mem_map_of_mem (fun e => e.1) hx)
      have hgk : getKey (e :: rest) t k =
          (e.2.find? (fun kv => kv.1 = k)).map (fun kv => kv.2) := by
        rw [getKey, lookupEntry, List.find?_cons_of_pos _ (by simpa using het)]
        rfl
      rw [hgk, docLast, hnone, if_pos het,
        lastProp_nodup e.2 k (hprops e (List.mem_cons_self e rest))]
    · have hgk : getKey (e :: rest) t k = getKey rest t k := by
        rw [getKey, getKey, lookupEntry, lookupEntry,
          List.find?_cons_of_neg _ (by simpa using het)]
      rw [hgk, docLast, ih ht (fun x hx => hprops x (List.mem_cons_of_mem e hx)), if_neg het]
      cases getKey rest t k <;> rfl

theorem getKey_mergeOverride_wf (ov : Doc) (hWF : WFdoc ov) (b : Doc) (u j : String) :
    getKey (mergeOverride b ov) u j =
      (match getKey ov u j with
       | some v => some v
       | none => getKey b u j) := by
  rw [getKey_mergeOverride, docLast_wf ov hWF]

theorem getKey_foldl_mergeOverride (frags : List Doc) :
    ∀ b : Doc, (∀ d ∈ frags, WFdoc d) → ∀ u j,
    getKey (frags.foldl mergeOverride b) u j =
      (match lastAssigned frags u j with
       | some v => some v
       | none => getKey b u j) := by
  induction frags with
  | nil => intro b _ u j; rfl
  | cons d rest ih =>
    intro b hWF u j
    rw [List.foldl_cons, ih (mergeOverride b d) (fun x hx => hWF x (List.mem_cons_of_mem d hx)),
      lastAssigned]
    cases hla : lastAssigned rest u j with
    | some v => simp
    | none =>
      simp only []
      exact getKey_mergeOverride_wf d (hWF d (List.mem_cons_self d rest)) b u j

theorem collectOptionOverrides_eq_foldl (defs : List (String × V2Option)) (cur : String → String) :
    ∀ fuel merged names, collectOptionOverrides defs cur fuel merged names =
      (overrideFragments defs cur fuel names).foldl mergeOverride merged := by
  intro fuel
  induction fuel with
  | zero => intro merged names; rfl
  | succ f ih =>
    intro merged names
    cases names with
    | nil => rfl
    | cons n rest =>
      rw [collectOptionOverrides, overrideFragments, List.foldl_append, ih]
      congr 1
      cases hlk : lookupOpt defs n with
      | none => rfl
      | some opt =>
        simp only []
        by_cases ht : opt.GetType = "select" ∨ opt.GetType = "switch"
        · rw [if_pos ht, if_pos ht]
          by_cases hc : cur n = ""
          · rw [if_pos hc, if_pos hc]
            rfl
          · rw [if_neg hc, if_neg hc]
            cases hfc : findCase opt.cases (cur n) with
            | none => rfl
            | some c =>
              simp only [List.foldl_append]
              by_cases ho : c.option.isEmpty
              · simp only [ho, if_true, if_pos ho]
                cases c.pipelineOverride <;> rfl
              · simp only [ho, if_neg ho, ih]
                cases c.pipelineOverride <;> rfl
        · rw [if_neg ht, if_neg ht]
          by_cases hi : opt.GetType = "input"
          · rw [if_pos hi, if_pos hi]
            cases opt.pipelineOverride <;> rfl
          · rw [if_neg hi, if_neg hi]
            rfl

/-- C3: the compiled override document of a task reads, at every
`entry.key`, the value assigned by the *last* fragment in the defined
merge order that assigns it — the task's own fragment first, then each
referenced option in declaration order, recursing through the selected
case's fragment and nested options (`overrideFragments`); and each
single merge is per-entry per-key: an assignment in the later fragment
overwrites the earlier value for that entry+key wholesale (no deep
merge), while unassigned keys keep the earlier value. -/
theorem c3_merge_order (defs : List (String × V2Option)) (fuel : Nat)
    (task : V2Task) (cfg : List ConfigTaskOption)
    (hWF : ∀ d ∈ taskFragList task ++
      overrideFragments defs (fun k => lastAssoc cfg k) fuel task.option, WFdoc d) :
    (∀ t k, getKey (mergePipelineOverrides defs fuel task cfg) t k =
      lastAssigned (taskFragList task ++
        overrideFragments defs (fun k => lastAssoc cfg k) fuel task.option) t k) ∧
    (∀ b ov u j, WFdoc ov → getKey (mergeOverride b ov) u j =
      (match getKey ov u j with
       | some v => some v
       | none => getKey b u j)) := by
  constructor
  · intro t k
    have hbase : (match task.pipelineOverride with
        | some d => mergeOverride [] d
        | none => ([] : Doc)) = (taskFragList task).foldl mergeOverride [] := by
      rw [taskFragList]
      cases task.pipelineOverride <;> rfl
    rw [mergePipelineOverrides]
    rw [collectOptionOverrides_eq_foldl, hbase, ← List.foldl_append,
      getKey_foldl_mergeOverride _ _ hWF]
    cases lastAssigned (taskFragList task ++
        overrideFragments defs (fun k => lastAssoc cfg k) fuel task.option) t k <;> rfl
  · intro b ov u j hov
    exact getKey_mergeOverride_wf ov hov b u j


/-- C3 (witness): the task fragment sets `E.k` and `E.other`; the
selected case's fragment (merged later) sets `E.k`: the case value
wins for `E.k`, the task value survives for `E.other`. -/
theorem c3_merge_order_witness :
    (getKey (mergePipelineOverrides
        [("O", ⟨"select", [⟨"C1", [], some [("E", [("k", Val.str "case")])]⟩], [], none, ""⟩)]
        2
        ⟨"T", "E", false, [], some [("E", [("k", Val.str "task"), ("other", Val.str "t2")])], ["O"]⟩
        [⟨"O", "C1"⟩]) "E" "k" =
      lastAssigned (taskFragList
          ⟨"T", "E", false, [], some [("E", [("k", Val.str "task"), ("other", Val.str "t2")])], ["O"]⟩ ++
        overrideFragments
          [("O", ⟨"select", [⟨"C1", [], some [("E", [("k", Val.str "case")])]⟩], [], none, ""⟩)]
          (fun k => lastAssoc [⟨"O", "C1"⟩] k) 2 ["O"]) "E" "k") ∧
    getKey (mergePipelineOverrides
        [("O", ⟨"select", [⟨"C1", [], some [("E", [("k", Val.str "case")])]⟩], [], none, ""⟩)]
        2
        ⟨"T", "E", false, [], some [("E", [("k", Val.str "task"), ("other", Val.str "t2")])], ["O"]⟩
        [⟨"O", "C1"⟩]) "E" "k" = some (Val.str "case") ∧
    getKey (mergePipelineOverrides
        [("O", ⟨"select", [⟨"C1", [], some [("E", [("k", Val.str "case")])]⟩], [], none, ""⟩)]
        2
        ⟨"T", "E", false, [], some [("E", [("k", Val.str "task"), ("other", Val.str "t2")])], ["O"]⟩
        [⟨"O", "C1"⟩]) "E" "other" = some (Val.str "t2") := by
  refine ⟨(c3_merge_order _ 2 _ _ (by decide)).1 "E" "k", rfl, rfl⟩


/- ------------------------------------------------------------------
C2 — synchronizer idempotence on freshly computed defaults.
------------------------------------------------------------------ -/

theorem lookupOpt_mem (defs : List (String × V2Option)) (n : String) (opt : V2Option)
    (h : lookupOpt defs n = some opt) : (n, opt) ∈ defs := by
  rw [lookupOpt] at h
  cases hf : defs.find? (fun p => p.1 = n) with
  | none => rw [hf] at h; simp at h
  | some q =>
    rw [hf] at h
    have hq := List.find?_some hf
    have hmem := List.mem_of_find?_eq_some hf
    simp at h hq
    rw [← h, ← hq]
    exact hmem

theorem findCase_head (c : V2OptionCase) (cs : List V2OptionCase) :
    findCase (c :: cs) c.name = some c := by
  simp [findCase, List.find?_cons]

theorem findCase_of_firstNonYes (cases : List V2OptionCase) (c : V2OptionCase)
    (h : cases.find? (fun c => !yesName c.name) = some c) :
    findCase cases c.name = some c := by
  induction cases with
  | nil => simp at h
  | cons x rest ih =>
    rw [List.find?_cons] at h
    by_cases hx : yesName x.name
    · rw [findCase, List.find?_cons]
      have hxb : (!yesName x.name) = false := by simp [hx]
      rw [hxb] at h
      have hc := List.find?_some h
      have hcy : ¬ yesName c.name := by simpa using hc
      have hne : ¬ x.name = c.name := fun he => hcy (he ▸ hx)
      simp only [hne, decide_False]
      exact ih h
    · have hxb : (!yesName x.name) = true := by simp [hx]
      rw [hxb] at h
      injection h with h
      subst h
      exact findCase_head x rest

theorem findCase_No_of_allYes (cases : List V2OptionCase)
    (h : cases.find? (fun c => !yesName c.name) = none) :
    findCase cases "No" = none := by
  rw [findCase, List.find?_eq_none]
  intro c hc
  have hy : yesName c.name := by
    have := List.find?_eq_none.mp h c hc
    simpa using this
  intro hcn
  have : c.name = "No" := by simpa using hcn
  rw [this] at hy
  exact absurd hy (by decide)

theorem valid_case_facts (regexOk : String → Bool) (iface : V2Interface)
    (hok : validateV2 regexOk iface = .ok ()) :
    ∀ n opt, (n, opt) ∈ iface.option →
      (opt.GetType = "select" ∨ opt.GetType = "switch") →
      opt.cases ≠ [] ∧ ∀ c ∈ opt.cases, c.name ≠ "" := by
  intro n opt hmem ht
  have h1 := checkAll_ok_mem _ _ _ (validateV2_ok_options _ _ hok) hmem
  unfold validateOption at h1
  rw [if_pos ht] at h1
  rw [validateSelectSwitch] at h1
  have hcard := exSeq_ok_left _ _ h1
  have hrest := exSeq_ok_right _ _ h1
  have hcases := exSeq_ok_left _ _ hrest
  constructor
  · intro hnil
    rw [checkCardinality, hnil] at hcard
    simp at hcard
  · intro c hc
    have hcc := checkAll_ok_mem _ _ _ hcases hc
    rw [validateCase] at hcc
    have hname := exSeq_ok_left _ _ hcc
    intro hcn
    rw [if_pos hcn] at hname
    simp at hname

theorem lastAssoc_sat (D : List ConfigTaskOption)
    (hfun : ∀ p ∈ D, ∀ q ∈ D, p.name = q.name → p.value = q.value) :
    ∀ p ∈ D, lastAssoc D p.name = p.value := by
  intro p hp
  rw [lastAssoc]
  cases hf : D.reverse.find? (fun x => x.name = p.name) with
  | none =>
    exfalso
    rw [List.find?_eq_none] at hf
    exact hf p (List.mem_reverse.mpr hp) (by simp)
  | some q =>
    have hq := List.find?_some hf
    have hqm := List.mem_of_find?_eq_some hf
    simp at hq
    simpa using hfun q (List.mem_reverse.mp hqm) p hp hq

/-- C2 (amended, main lemma): on a schema whose select/switch options
all have at least one case and non-empty case names (what validation
guarantees), the expected-set walk seeded with a current-value map
that agrees with every entry of the defaults walk reproduces the
defaults walk exactly, at every fuel. -/
theorem expected_eq_defaults (defs : List (String × V2Option))
    (hvalid : ∀ n opt, (n, opt) ∈ defs →
      (opt.GetType = "select" ∨ opt.GetType = "switch") →
      opt.cases ≠ [] ∧ ∀ c ∈ opt.cases, c.name ≠ "")
    (cur : String → String) :
    ∀ fuel names,
      (∀ p ∈ collectOptionDefaults defs fuel names, cur p.name = p.value) →
      collectExpectedOptions defs cur fuel names = collectOptionDefaults defs fuel names := by
  intro fuel
  induction fuel with
  | zero => intro names _; rfl
  | succ f ih =>
    intro names hsat
    cases names with
    | nil => rfl
    | cons n rest =>
      rw [collectOptionDefaults] at hsat
      rw [collectOptionDefaults, collectExpectedOptions]
      cases hlk : lookupOpt defs n with
      | none =>
        rw [hlk] at hsat
        simp only [List.nil_append] at hsat ⊢
        exact ih rest hsat
      | some opt =>
        rw [hlk] at hsat
        have hmem := lookupOpt_mem defs n opt hlk
        have htail : ∀ p ∈ collectOptionDefaults defs f rest, cur p.name = p.value := by
          intro p hp
          exact hsat p (List.mem_append_right _ hp)
        rw [ih rest htail]
        congr 1
        by_cases hts : opt.GetType = "select"
        · obtain ⟨hne, hnames⟩ := hvalid n opt hmem (Or.inl hts)
          have hTT : ((("select" : String) = "select")) = True := by simp
          simp only [hts, hTT, if_true] at hsat ⊢
          by_cases hdc : opt.defaultCase = ""
          · cases hcs : opt.cases with
            | nil => exact absurd hcs hne
            | cons c0 cs =>
              have hc0 : c0.name ≠ "" := by
                apply hnames
                rw [hcs]
                exact List.mem_cons_self c0 cs
              have hdcT : (opt.defaultCase = "") = True := by simp [hdc]
              have hc0F : (c0.name = "") = False := by simp [hc0]
              simp only [hcs, hdcT, if_true, hc0F, if_false] at hsat ⊢
              have hcur : cur n = c0.name := by
                have := hsat (ConfigTaskOption.mk n c0.name) (by simp)
                simpa using this
              simp only [hcur, hc0F, if_false, findCase_head, List.head?_cons]
              by_cases hoe : c0.option.isEmpty
              · simp [hoe]
              · have hnest : ∀ p ∈ collectOptionDefaults defs f c0.option,
                    cur p.name = p.value := by
                  intro p hp
                  apply hsat p
                  simp [hp, hoe]
                simp [hoe, ih c0.option hnest]
          · have hdcF : (opt.defaultCase = "") = False := by simp [hdc]
            have hdcne : (opt.defaultCase = "") = False := hdcF
            simp only [hdcF, if_false] at hsat ⊢
            have hcur : cur n = opt.defaultCase := by
              have := hsat (ConfigTaskOption.mk n opt.defaultCase) (by simp [hdc])
              simpa using this
            simp only [hcur, hdcF, if_false]
            cases hfc : findCase opt.cases opt.defaultCase with
            | none => simp
            | some c =>
              by_cases hoe : c.option.isEmpty
              · simp [hoe]
              · have hnest : ∀ p ∈ collectOptionDefaults defs f c.option,
                    cur p.name = p.value := by
                  intro p hp
                  apply hsat p
                  simp [hp, hoe, hfc]
                simp [hoe, ih c.option hnest]
        · by_cases htw : opt.GetType = "switch"
          · obtain ⟨hne, hnames⟩ := hvalid n opt hmem (Or.inr htw)
            have hTs : ((("switch" : String) = "select")) = False := by simp
            have hTw : ((("switch" : String) = "switch")) = True := by simp
            simp only [htw, hTs, if_false, hTw, if_true] at hsat ⊢
            cases hfy : opt.cases.find? (fun c => !yesName c.name) with
            | some c =>
              have hcm := List.mem_of_find?_eq_some hfy
              have hcn : c.name ≠ "" := hnames c hcm
              have hcnF : (c.name = "") = False := by simp [hcn]
              simp only [hfy, hcnF, if_false] at hsat ⊢
              have hcur : cur n = c.name := by
                have := hsat (ConfigTaskOption.mk n c.name) (by simp)
                simpa using this
              simp only [hcur, hcnF, if_false, findCase_of_firstNonYes opt.cases c hfy]
              by_cases hoe : c.option.isEmpty
              · simp [hoe]
              · have hnest : ∀ p ∈ collectOptionDefaults defs f c.option,
                    cur p.name = p.value := by
                  intro p hp
                  apply hsat p
                  simp [hp, hoe]
                simp [hoe, ih c.option hnest]
            | none =>
              have hneF : opt.cases.isEmpty = false := by
                cases hx : opt.cases with
                | nil => exact absurd hx hne
                | cons a l => rfl
              have hNoF : ((("No" : String) = "")) = False := by simp
              simp only [hfy, hneF, Bool.false_eq_true, if_false, hNoF] at hsat ⊢
              have hcur : cur n = "No" := by
                have := hsat (ConfigTaskOption.mk n "No") (by simp)
                simpa using this
              simp only [hcur, hNoF, if_false, findCase_No_of_allYes opt.cases hfy]
              simp
          · by_cases hti : opt.GetType = "input"
            · have hTs : ((("input" : String) = "select")) = False := by simp
              have hTw : ((("input" : String) = "switch")) = False := by simp
              simp only [hti, hTs, hTw, if_false, if_true] at hsat ⊢
              apply List.map_congr_left
              intro inp hinp
              have hcur : cur (n ++ "." ++ inp.name) = defaultInputValue inp := by
                have := hsat (ConfigTaskOption.mk (n ++ "." ++ inp.name) (defaultInputValue inp))
                  (List.mem_append_left _ (List.mem_map_of_mem _ hinp))
                simpa using this
              by_cases hdv : defaultInputValue inp = ""
              · have hdef : inp.default = "" := by
                  by_contra hd
                  rw [defaultInputValue, if_neg hd] at hdv
                  exact hd hdv
                have htz : typeZero inp.pipelineType = "" := by
                  rw [defaultInputValue, if_pos hdef] at hdv
                  exact hdv
                simp [hcur, hdv, hdef, htz, defaultInputValue]
              · simp [hcur, hdv]
            · simp only [hts, htw, hti, if_false]

/-- C2 (amended): for every schema accepted by the validator, if the
computed default option list contains no two entries sharing a name
with different values (no aliasing between an option name and an
`optionName.inputName` key), then running the synchronizer seeded with
exactly those defaults returns `changed = false` and leaves the option
list unchanged. -/
theorem c2_sync_idempotent (regexOk : String → Bool) (iface : V2Interface)
    (fuel : Nat) (names : List String)
    (hok : validateV2 regexOk iface = .ok ())
    (hfun : ∀ p ∈ collectOptionDefaults iface.option fuel names,
      ∀ q ∈ collectOptionDefaults iface.option fuel names,
        p.name = q.name → p.value = q.value) :
    syncTaskConfigOptions iface.option fuel
      (collectOptionDefaults iface.option fuel names) names =
      (false, collectOptionDefaults iface.option fuel names) := by
  set D := collectOptionDefaults iface.option fuel names with hD
  have hvalid := valid_case_facts regexOk iface hok
  have hsat : ∀ p ∈ D, (fun k => lastAssoc D k) p.name = p.value := lastAssoc_sat D hfun
  have hED := expected_eq_defaults iface.option hvalid (fun k => lastAssoc D k) fuel names hsat
  rw [syncTaskConfigOptions]
  simp only [hED.trans hD.symm]
  have hmiss : D.filter (fun e => (D.find? (fun o => o.name = e.name)).isNone) = [] := by
    rw [List.filter_eq_nil_iff]
    intro e he
    have hs : (D.find? (fun o => o.name = e.name)).isSome := by
      rw [List.find?_isSome]
      exact ⟨e, he, by simp⟩
    cases h : D.find? (fun o => o.name = e.name) with
    | none => rw [h] at hs; simp at hs
    | some q => simp [h]
  have hextra : D.filter (fun o => !(D.any (fun e => e.name = o.name))) = [] := by
    rw [List.filter_eq_nil_iff]
    intro o ho
    simp only [Bool.not_eq_true', Bool.not_eq_false]
    rw [List.any_eq_true]
    exact ⟨o, ho, by simp⟩
  simp [hmiss, hextra]


/-- C2 (counterexample): a validator-accepted schema on which the
original claim fails.  The select option named `A.b` (with nested
option `N`) aliases the stored key `A.b` generated by input option `A`
with input `b`: the stored map retains `"5"` for key `A.b`, the
expected-set walk then finds no case named `"5"` and never reaches
`N`, so the synchronizer reports `changed = true` and drops the `N`
entry even though it was seeded with exactly the computed defaults. -/
theorem c2_counterexample :
    validateV2 (fun _ => true)
      ⟨2, "app", [], [], [], none, [⟨"T", "E", false, [], none, ["A.b", "A"]⟩],
       [("A.b", ⟨"select", [⟨"C", ["N"], none⟩], [], none, ""⟩),
        ("A", ⟨"input", [], [⟨"b", "5", "string", ""⟩], none, ""⟩),
        ("N", ⟨"select", [⟨"CN", [], none⟩], [], none, ""⟩)]⟩ = .ok () ∧
    collectOptionDefaults
      [("A.b", ⟨"select", [⟨"C", ["N"], none⟩], [], none, ""⟩),
       ("A", ⟨"input", [], [⟨"b", "5", "string", ""⟩], none, ""⟩),
       ("N", ⟨"select", [⟨"CN", [], none⟩], [], none, ""⟩)]
      5 ["A.b", "A"] = [⟨"A.b", "C"⟩, ⟨"N", "CN"⟩, ⟨"A.b", "5"⟩] ∧
    (syncTaskConfigOptions
      [("A.b", ⟨"select", [⟨"C", ["N"], none⟩], [], none, ""⟩),
       ("A", ⟨"input", [], [⟨"b", "5", "string", ""⟩], none, ""⟩),
       ("N", ⟨"select", [⟨"CN", [], none⟩], [], none, ""⟩)]
      5 [⟨"A.b", "C"⟩, ⟨"N", "CN"⟩, ⟨"A.b", "5"⟩] ["A.b", "A"]).1 = true ∧
    (syncTaskConfigOptions
      [("A.b", ⟨"select", [⟨"C", ["N"], none⟩], [], none, ""⟩),
       ("A", ⟨"input", [], [⟨"b", "5", "string", ""⟩], none, ""⟩),
       ("N", ⟨"select", [⟨"CN", [], none⟩], [], none, ""⟩)]
      5 [⟨"A.b", "C"⟩, ⟨"N", "CN"⟩, ⟨"A.b", "5"⟩] ["A.b", "A"]).2 =
      [⟨"A.b", "C"⟩, ⟨"A.b", "5"⟩] :=
  ⟨rfl, rfl, rfl, rfl⟩

/-- C2 (witness): on a concrete valid schema without key aliasing
(a select with a nested input under its second case), the synchronizer
seeded with the computed defaults reports no change. -/
theorem c2_sync_idempotent_witness :
    syncTaskConfigOptions
      [("Diff", ⟨"select", [⟨"Easy", [], none⟩, ⟨"Hard", ["Sub"], none⟩], [], none, ""⟩),
       ("Sub", ⟨"input", [], [⟨"x", "5", "int", ""⟩], none, ""⟩)]
      3
      (collectOptionDefaults
        [("Diff", ⟨"select", [⟨"Easy", [], none⟩, ⟨"Hard", ["Sub"], none⟩], [], none, ""⟩),
         ("Sub", ⟨"input", [], [⟨"x", "5", "int", ""⟩], none, ""⟩)]
        3 ["Diff"]) ["Diff"] =
      (false,
       collectOptionDefaults
        [("Diff", ⟨"select", [⟨"Easy", [], none⟩, ⟨"Hard", ["Sub"], none⟩], [], none, ""⟩),
         ("Sub", ⟨"input", [], [⟨"x", "5", "int", ""⟩], none, ""⟩)]
        3 ["Diff"]) := by
  exact c2_sync_idempotent (fun _ => true)
    ⟨2, "app", [], [], [], none, [⟨"T", "E", false, [], none, ["Diff"]⟩],
     [("Diff", ⟨"select", [⟨"Easy", [], none⟩, ⟨"Hard", ["Sub"], none⟩], [], none, ""⟩),
      ("Sub", ⟨"input", [], [⟨"x", "5", "int", ""⟩], none, ""⟩)]⟩
    3 ["Diff"] rfl (by decide)
